import Mathlib

/-!
# Xhaust syntax trees (`src/treegen.hpp`)

A shallow embedding of the node classes of `treegen.hpp` and of their `print`
methods, followed by the properties of the outline that `print` writes.

* A `TreeNode *` is an `Option TreeNode`; `none` is `nullptr`.
* `std::cout` is passed explicitly as the `String` written so far.
* `print` returns `none` when it dereferences a null child pointer.
* `int` is a 32-bit two's complement integer: `level + 1` is `wrapInt32 (level + 1)`.
-/

namespace Xhaust

/-! ## Kind tags (`#define TN_...`) -/

def TN_UNDEFINED : Int := -1
def TN_FUNC_CALL : Int := 0
def TN_GROUP : Int := 1
def TN_VALUE : Int := 2
def TN_OPERATOR : Int := 3
def TN_BLOCK : Int := 4
def TN_IF : Int := 5
def TN_EXHAUST : Int := 6

/-! ## Node classes -/

/-- The seven classes derived from `TreeNode`. Every object carries the base
class member `type` and the members of its own class; child pointers are
optional. -/
inductive TreeNode where
  | FunctionCallNode (type : Int) (functionName : String)
      (functionArguments : List (Option TreeNode))
  | GroupNode (type : Int) (expression : Option TreeNode)
  | ValueNode (type : Int) (value : String) (isConstant : Bool)
  | BlockNode (type : Int) (body : List (Option TreeNode))
  | ExhaustNode (type : Int) (condition : Option TreeNode) (body : Option TreeNode)
      (usesVariable : Bool)
  | IfNode (type : Int) (condition : Option TreeNode) (body : Option TreeNode)
  | OperatorNode (type : Int) (op : String) (lhs : Option TreeNode) (rhs : Option TreeNode)

/-- The class an object belongs to. -/
inductive NodeClass where
  | functionCall
  | group
  | value
  | block
  | exhaust
  | ifNode
  | operator
  deriving DecidableEq, Repr

namespace TreeNode

/-- The dynamic class of a node. -/
def nodeClass : TreeNode → NodeClass
  | FunctionCallNode .. => .functionCall
  | GroupNode .. => .group
  | ValueNode .. => .value
  | BlockNode .. => .block
  | ExhaustNode .. => .exhaust
  | IfNode .. => .ifNode
  | OperatorNode .. => .operator

/-- Member `TreeNode::type`. -/
def type : TreeNode → Int
  | FunctionCallNode t _ _ => t
  | GroupNode t _ => t
  | ValueNode t _ _ => t
  | BlockNode t _ => t
  | ExhaustNode t _ _ _ => t
  | IfNode t _ _ => t
  | OperatorNode t _ _ _ => t

/-- Assignment `type = t;` in a constructor body. -/
def setType (t : Int) : TreeNode → TreeNode
  | FunctionCallNode _ n a => FunctionCallNode t n a
  | GroupNode _ e => GroupNode t e
  | ValueNode _ v c => ValueNode t v c
  | BlockNode _ b => BlockNode t b
  | ExhaustNode _ c b u => ExhaustNode t c b u
  | IfNode _ c b => IfNode t c b
  | OperatorNode _ o l r => OperatorNode t o l r

/-- Member `FunctionCallNode::functionName`. -/
def functionName : TreeNode → Option String
  | FunctionCallNode _ n _ => some n
  | _ => none

/-- Member `FunctionCallNode::functionArguments`. -/
def functionArguments : TreeNode → Option (List (Option TreeNode))
  | FunctionCallNode _ _ a => some a
  | _ => none

/-- Member `GroupNode::expression`. -/
def expression : TreeNode → Option (Option TreeNode)
  | GroupNode _ e => some e
  | _ => none

/-- Member `ValueNode::value`. -/
def value : TreeNode → Option String
  | ValueNode _ v _ => some v
  | _ => none

/-- Member `ValueNode::isConstant`. -/
def isConstant : TreeNode → Option Bool
  | ValueNode _ _ c => some c
  | _ => none

/-- Member `BlockNode::body`. -/
def blockBody : TreeNode → Option (List (Option TreeNode))
  | BlockNode _ b => some b
  | _ => none

/-- Member `condition` of `ExhaustNode` and `IfNode`. -/
def condition : TreeNode → Option (Option TreeNode)
  | ExhaustNode _ c _ _ => some c
  | IfNode _ c _ => some c
  | _ => none

/-- Member `body` of `ExhaustNode` and `IfNode`. -/
def body : TreeNode → Option (Option TreeNode)
  | ExhaustNode _ _ b _ => some b
  | IfNode _ _ b => some b
  | _ => none

/-- Member `ExhaustNode::usesVariable`. -/
def usesVariable : TreeNode → Option Bool
  | ExhaustNode _ _ _ u => some u
  | _ => none

/-- Member `OperatorNode::op`. -/
def op : TreeNode → Option String
  | OperatorNode _ o _ _ => some o
  | _ => none

/-- Member `OperatorNode::lhs`. -/
def lhs : TreeNode → Option (Option TreeNode)
  | OperatorNode _ _ l _ => some l
  | _ => none

/-- Member `OperatorNode::rhs`. -/
def rhs : TreeNode → Option (Option TreeNode)
  | OperatorNode _ _ _ r => some r
  | _ => none

/-- The child pointers of a node, in the order `print` visits them. -/
def children : TreeNode → List (Option TreeNode)
  | FunctionCallNode _ _ a => a
  | GroupNode _ e => [e]
  | ValueNode .. => []
  | BlockNode _ b => b
  | ExhaustNode _ c b _ => [c, b]
  | IfNode _ c b => [c, b]
  | OperatorNode _ _ l r => [l, r]

end TreeNode

/-! ## Constructors

The base class initialises `type` to `TN_UNDEFINED`, the member initialiser
list stores the arguments, and the constructor body assigns the tag. -/

/-- `FunctionCallNode(std::string functionName, std::vector<TreeNode *> args)`. -/
def newFunctionCallNode (functionName : String) (args : List (Option TreeNode)) : TreeNode :=
  (TreeNode.FunctionCallNode TN_UNDEFINED functionName args).setType TN_FUNC_CALL

/-- `GroupNode(TreeNode *expr)`. -/
def newGroupNode (expr : Option TreeNode) : TreeNode :=
  (TreeNode.GroupNode TN_UNDEFINED expr).setType TN_GROUP

/-- `ValueNode(std::string value, bool isConstant)`. -/
def newValueNode (value : String) (isConstant : Bool) : TreeNode :=
  (TreeNode.ValueNode TN_UNDEFINED value isConstant).setType TN_VALUE

/-- `BlockNode(std::vector<TreeNode *> body)`. -/
def newBlockNode (body : List (Option TreeNode)) : TreeNode :=
  (TreeNode.BlockNode TN_UNDEFINED body).setType TN_BLOCK

/-- `ExhaustNode(TreeNode *condition, TreeNode *body, bool usesVariable)`. -/
def newExhaustNode (condition body : Option TreeNode) (usesVariable : Bool) : TreeNode :=
  (TreeNode.ExhaustNode TN_UNDEFINED condition body usesVariable).setType TN_EXHAUST

/-- `IfNode(TreeNode *condition, TreeNode *body)`. -/
def newIfNode (condition body : Option TreeNode) : TreeNode :=
  (TreeNode.IfNode TN_UNDEFINED condition body).setType TN_IF

/-- `OperatorNode(std::string op, TreeNode *lhs, TreeNode *rhs)`. -/
def newOperatorNode (op : String) (lhs rhs : Option TreeNode) : TreeNode :=
  (TreeNode.OperatorNode TN_UNDEFINED op lhs rhs).setType TN_OPERATOR

/-- A node is the immediate result of one of the seven constructors. -/
inductive Constructed : TreeNode → Prop where
  | functionCall (name : String) (args : List (Option TreeNode)) :
      Constructed (newFunctionCallNode name args)
  | group (expr : Option TreeNode) : Constructed (newGroupNode expr)
  | value (v : String) (c : Bool) : Constructed (newValueNode v c)
  | block (body : List (Option TreeNode)) : Constructed (newBlockNode body)
  | exhaust (cond body : Option TreeNode) (u : Bool) : Constructed (newExhaustNode cond body u)
  | ifNode (cond body : Option TreeNode) : Constructed (newIfNode cond body)
  | operator (op : String) (l r : Option TreeNode) : Constructed (newOperatorNode op l r)

/-- The tag each class assigns in its constructor. -/
def NodeClass.tag : NodeClass → Int
  | .functionCall => TN_FUNC_CALL
  | .group => TN_GROUP
  | .value => TN_VALUE
  | .block => TN_BLOCK
  | .exhaust => TN_EXHAUST
  | .ifNode => TN_IF
  | .operator => TN_OPERATOR

/-! ## `print` -/

/-- Value of an `int` expression: reduction into `[-2^31, 2^31)`. -/
def wrapInt32 (x : Int) : Int := (x + 2147483648) % 4294967296 - 2147483648

/-- `INT_MAX`. -/
def INT_MAX : Int := 2147483647

/-- `INT_MIN`. -/
def INT_MIN : Int := -2147483648

/-- The loop body `std::cout << "  ";` run `n` times. -/
def indentLoop : Nat → String → String
  | 0, out => out
  | n + 1, out => indentLoop n (out ++ "  ")

/-- `for (int i = 0; i < level; i++) std::cout << "  ";` : the body runs once
for each `i` with `0 ≤ i < level`, that is `level.toNat` times. -/
def printIndent (level : Int) (out : String) : String :=
  indentLoop level.toNat out

mutual
/-- The virtual method `print(int level)` of the seven classes. -/
def TreeNode.print : TreeNode → Int → String → Option String
  | .FunctionCallNode _ functionName functionArguments, level, out =>
      printEach functionArguments (wrapInt32 (level + 1))
        (printIndent level out ++ "FunctionCall : " ++ functionName ++ "\n")
  | .GroupNode _ expression, level, out =>
      printPtr expression (wrapInt32 (level + 1)) (printIndent level out ++ "Group" ++ "\n")
  | .ValueNode _ value _, level, out =>
      some (printIndent level out ++ "Value : " ++ value ++ "\n")
  | .BlockNode _ body, level, out =>
      printEach body (wrapInt32 (level + 1)) (printIndent level out ++ "Block" ++ "\n")
  | .ExhaustNode _ condition body _, level, out =>
      match printPtr condition (wrapInt32 (level + 1))
          (printIndent level out ++ "Exhaust" ++ "\n") with
      | none => none
      | some out1 => printPtr body (wrapInt32 (level + 1)) out1
  | .IfNode _ condition body, level, out =>
      match printPtr condition (wrapInt32 (level + 1))
          (printIndent level out ++ "If" ++ "\n") with
      | none => none
      | some out1 => printPtr body (wrapInt32 (level + 1)) out1
  | .OperatorNode _ op lhs rhs, level, out =>
      match printPtr lhs (wrapInt32 (level + 1))
          (printIndent level out ++ "Operator : " ++ op ++ "\n") with
      | none => none
      | some out1 => printPtr rhs (wrapInt32 (level + 1)) out1
/-- The call `p->print(level)` through a pointer: a null `p` is a null dereference. -/
def printPtr : Option TreeNode → Int → String → Option String
  | none, _, _ => none
  | some node, level, out => node.print level out
/-- The loop `for (TreeNode *node : v) node->print(level);`. -/
def printEach : List (Option TreeNode) → Int → String → Option String
  | [], _, out => some out
  | node :: rest, level, out =>
      match printPtr node level out with
      | none => none
      | some out1 => printEach rest level out1
end

/-- Memory and output stream around a call of `print` on a tree. -/
structure World where
  root : TreeNode
  cout : String

/-- The statement `root->print(level);`. `print` is a `const` method and every
member of the node classes is `const`, so only the stream changes. -/
def World.callPrint (w : World) (level : Int) : Option World :=
  match w.root.print level w.cout with
  | none => none
  | some out => some { root := w.root, cout := out }

/-! ## Destructors -/

mutual
/-- The destructors, returning how many node objects the call destroys.
`FunctionCallNode`, `GroupNode` and `OperatorNode` test the pointer before
`delete`; the other classes call `delete` directly, which does nothing on
`nullptr`. -/
def TreeNode.destroy : TreeNode → Nat
  | .FunctionCallNode _ _ functionArguments => 1 + deleteEach functionArguments
  | .GroupNode _ expression => 1 + deletePtr expression
  | .ValueNode _ _ _ => 1
  | .BlockNode _ body => 1 + deleteEach body
  | .ExhaustNode _ condition body _ => 1 + deletePtr condition + deletePtr body
  | .IfNode _ condition body => 1 + deletePtr condition + deletePtr body
  | .OperatorNode _ _ lhs rhs => 1 + deletePtr lhs + deletePtr rhs
/-- `delete p;` (also behind `if (p != nullptr)`). -/
def deletePtr : Option TreeNode → Nat
  | none => 0
  | some node => node.destroy
/-- `for (TreeNode *elem : v) delete elem;`. -/
def deleteEach : List (Option TreeNode) → Nat
  | [] => 0
  | node :: rest => deletePtr node + deleteEach rest
end

/-! ## Vocabulary of the properties -/

mutual
/-- No child pointer in the subtree is null. -/
def TreeNode.noNullChild : TreeNode → Bool
  | .FunctionCallNode _ _ functionArguments => eachNonNull functionArguments
  | .GroupNode _ expression => ptrNonNull expression
  | .ValueNode _ _ _ => true
  | .BlockNode _ body => eachNonNull body
  | .ExhaustNode _ condition body _ => ptrNonNull condition && ptrNonNull body
  | .IfNode _ condition body => ptrNonNull condition && ptrNonNull body
  | .OperatorNode _ _ lhs rhs => ptrNonNull lhs && ptrNonNull rhs
/-- The pointer is not null and the tree it points to has no null child. -/
def ptrNonNull : Option TreeNode → Bool
  | none => false
  | some node => node.noNullChild
/-- Every pointer of the sequence satisfies `ptrNonNull`. -/
def eachNonNull : List (Option TreeNode) → Bool
  | [] => true
  | node :: rest => ptrNonNull node && eachNonNull rest
end

mutual
/-- Number of nodes of the subtree. -/
def TreeNode.nodeCount : TreeNode → Nat
  | .FunctionCallNode _ _ functionArguments => 1 + eachNodeCount functionArguments
  | .GroupNode _ expression => 1 + ptrNodeCount expression
  | .ValueNode _ _ _ => 1
  | .BlockNode _ body => 1 + eachNodeCount body
  | .ExhaustNode _ condition body _ => 1 + ptrNodeCount condition + ptrNodeCount body
  | .IfNode _ condition body => 1 + ptrNodeCount condition + ptrNodeCount body
  | .OperatorNode _ _ lhs rhs => 1 + ptrNodeCount lhs + ptrNodeCount rhs
/-- Number of nodes below a pointer. -/
def ptrNodeCount : Option TreeNode → Nat
  | none => 0
  | some node => node.nodeCount
/-- Number of nodes below the pointers of a sequence. -/
def eachNodeCount : List (Option TreeNode) → Nat
  | [] => 0
  | node :: rest => ptrNodeCount node + eachNodeCount rest
end

/-- The string holds no newline character. -/
def noNewline (s : String) : Bool := !s.data.contains '\n'

mutual
/-- No string payload (`value`, `op`, `functionName`) of the subtree holds a newline. -/
def TreeNode.payloadNoNewline : TreeNode → Bool
  | .FunctionCallNode _ functionName functionArguments =>
      noNewline functionName && eachPayloadNoNewline functionArguments
  | .GroupNode _ expression => ptrPayloadNoNewline expression
  | .ValueNode _ value _ => noNewline value
  | .BlockNode _ body => eachPayloadNoNewline body
  | .ExhaustNode _ condition body _ => ptrPayloadNoNewline condition && ptrPayloadNoNewline body
  | .IfNode _ condition body => ptrPayloadNoNewline condition && ptrPayloadNoNewline body
  | .OperatorNode _ op lhs rhs =>
      noNewline op && ptrPayloadNoNewline lhs && ptrPayloadNoNewline rhs
/-- `payloadNoNewline` below a pointer. -/
def ptrPayloadNoNewline : Option TreeNode → Bool
  | none => true
  | some node => node.payloadNoNewline
/-- `payloadNoNewline` below the pointers of a sequence. -/
def eachPayloadNoNewline : List (Option TreeNode) → Bool
  | [] => true
  | node :: rest => ptrPayloadNoNewline node && eachPayloadNoNewline rest
end

/-- Number of newline-terminated lines of a text. -/
def lineCount (s : String) : Nat := s.data.count '\n'

/-- Number of spaces a text begins with. -/
def leadingSpaces (s : String) : Nat := (s.data.takeWhile (· == ' ')).length


/-- Indentation written by `printIndent`: two spaces per level, none below level 1. -/
def indentation (level : Int) : String := String.mk (List.replicate (2 * level.toNat) ' ')

mutual
/-- The text `print` writes when it completes. -/
def TreeNode.written : TreeNode → Int → String
  | .FunctionCallNode _ functionName functionArguments, level =>
      indentation level ++ "FunctionCall : " ++ functionName ++ "\n"
        ++ eachWritten functionArguments (wrapInt32 (level + 1))
  | .GroupNode _ expression, level =>
      indentation level ++ "Group" ++ "\n" ++ ptrWritten expression (wrapInt32 (level + 1))
  | .ValueNode _ value _, level => indentation level ++ "Value : " ++ value ++ "\n"
  | .BlockNode _ body, level =>
      indentation level ++ "Block" ++ "\n" ++ eachWritten body (wrapInt32 (level + 1))
  | .ExhaustNode _ condition body _, level =>
      indentation level ++ "Exhaust" ++ "\n" ++ ptrWritten condition (wrapInt32 (level + 1))
        ++ ptrWritten body (wrapInt32 (level + 1))
  | .IfNode _ condition body, level =>
      indentation level ++ "If" ++ "\n" ++ ptrWritten condition (wrapInt32 (level + 1))
        ++ ptrWritten body (wrapInt32 (level + 1))
  | .OperatorNode _ op lhs rhs, level =>
      indentation level ++ "Operator : " ++ op ++ "\n" ++ ptrWritten lhs (wrapInt32 (level + 1))
        ++ ptrWritten rhs (wrapInt32 (level + 1))
/-- The text written through a pointer. -/
def ptrWritten : Option TreeNode → Int → String
  | none, _ => ""
  | some node, level => node.written level
/-- The text written for a sequence of pointers. -/
def eachWritten : List (Option TreeNode) → Int → String
  | [], _ => ""
  | node :: rest, level => ptrWritten node level ++ eachWritten rest level
end


/-- The text of a node's own line, without indentation and newline. -/
def TreeNode.label : TreeNode → String
  | .FunctionCallNode _ functionName _ => "FunctionCall : " ++ functionName
  | .GroupNode _ _ => "Group"
  | .ValueNode _ value _ => "Value : " ++ value
  | .BlockNode _ _ => "Block"
  | .ExhaustNode _ _ _ _ => "Exhaust"
  | .IfNode _ _ _ => "If"
  | .OperatorNode _ op _ _ => "Operator : " ++ op

/-- The direct children are indented one level deeper than the node: the text
each child writes when `print level` calls it begins with exactly two more
spaces than the text of the node itself. -/
def ChildrenIndentedDeeper (t : TreeNode) (level : Int) : Prop :=
  ∀ whole, t.print level "" = some whole →
    ∀ c ∈ t.children, ∀ part, printPtr c (wrapInt32 (level + 1)) "" = some part →
      leadingSpaces part = leadingSpaces whole + 2

/-- One node per line: `print level` completes and writes as many
newline-terminated lines as the subtree has nodes. -/
def OneLinePerNode (t : TreeNode) (level : Int) : Prop :=
  ∃ text, t.print level "" = some text ∧ text.data.getLast? = some '\n' ∧
    lineCount text = t.nodeCount

mutual
/-- Depth of the deepest node of the subtree, the root being at depth 0. -/
def TreeNode.height : TreeNode → Nat
  | .FunctionCallNode _ _ functionArguments => eachHeight functionArguments
  | .GroupNode _ expression => ptrHeight expression + 1
  | .ValueNode _ _ _ => 0
  | .BlockNode _ body => eachHeight body
  | .ExhaustNode _ condition body _ => max (ptrHeight condition) (ptrHeight body) + 1
  | .IfNode _ condition body => max (ptrHeight condition) (ptrHeight body) + 1
  | .OperatorNode _ _ lhs rhs => max (ptrHeight lhs) (ptrHeight rhs) + 1
/-- Height below a pointer. -/
def ptrHeight : Option TreeNode → Nat
  | none => 0
  | some node => node.height
/-- Depth, counted from the parent, of the deepest node below a sequence of children. -/
def eachHeight : List (Option TreeNode) → Nat
  | [] => 0
  | node :: rest => max (ptrHeight node + 1) (eachHeight rest)
end

mutual
/-- Pre-order listing of the subtree as (depth, label) pairs: a node before its
children, children in stored order, `lhs` before `rhs`, `condition` before `body`. -/
def TreeNode.preorder : TreeNode → Nat → List (Nat × String)
  | .FunctionCallNode _ functionName functionArguments, d =>
      (d, "FunctionCall : " ++ functionName) :: eachPreorder functionArguments (d + 1)
  | .GroupNode _ expression, d => (d, "Group") :: ptrPreorder expression (d + 1)
  | .ValueNode _ value _, d => [(d, "Value : " ++ value)]
  | .BlockNode _ body, d => (d, "Block") :: eachPreorder body (d + 1)
  | .ExhaustNode _ condition body _, d =>
      (d, "Exhaust") :: (ptrPreorder condition (d + 1) ++ ptrPreorder body (d + 1))
  | .IfNode _ condition body, d =>
      (d, "If") :: (ptrPreorder condition (d + 1) ++ ptrPreorder body (d + 1))
  | .OperatorNode _ op lhs rhs, d =>
      (d, "Operator : " ++ op) :: (ptrPreorder lhs (d + 1) ++ ptrPreorder rhs (d + 1))
/-- Pre-order listing below a pointer. -/
def ptrPreorder : Option TreeNode → Nat → List (Nat × String)
  | none, _ => []
  | some node, d => node.preorder d
/-- Pre-order listing below a sequence of pointers. -/
def eachPreorder : List (Option TreeNode) → Nat → List (Nat × String)
  | [], _ => []
  | node :: rest, d => ptrPreorder node d ++ eachPreorder rest d
end

/-- The line of a node at depth `d` below the root of an outline that starts at
`level`: `2 * max 0 (level + d)` spaces, the label, a newline. -/
def referenceLine (level : Int) (entry : Nat × String) : String :=
  String.mk (List.replicate (2 * max 0 (level + entry.1)).toNat ' ') ++ entry.2 ++ "\n"

/-- The reference outline: the lines of the nodes, concatenated in pre-order. -/
def referenceOutline (t : TreeNode) (level : Int) : String :=
  String.join ((t.preorder 0).map (referenceLine level))

/-- No direct child pointer of the node is null. -/
def TreeNode.childrenNonNull (t : TreeNode) : Bool := t.children.all Option.isSome

/-! ## Tree generator

`treegen.hpp` declares the class `TreeGenerator` (members `tokens`, `marker`,
`runningLHS` and the parse methods) but holds no method body, and `lexer.hpp`,
which declares `Token`, is not part of the sources. The definitions of this
section follow the description of the generator in the specification. Every
method takes a fuel argument bounding the depth of the recursive descent;
`buildTree` supplies enough of it for every input (`buildTree_completes`). -/

/-- Modelled from the spec: the classification of a token of `lexer.hpp`
(identifier, literal, keyword, operator, delimiter). -/
inductive TokenClass where
  | identifier
  | literal
  | keyword
  | operator
  | delimiter
  deriving DecidableEq, Repr

/-- Modelled from the spec: a token of `lexer.hpp`, carrying its classification
and its literal text. -/
structure Token where
  kind : TokenClass
  text : String
  deriving DecidableEq, Repr

/-- Modelled from the spec: the error taxonomy of the generator. -/
inductive ParseErrorKind where
  | UnexpectedToken
  | UnexpectedEndOfInput
  | MalformedExpression
  deriving DecidableEq, Repr

/-- Modelled from the spec: the construct being parsed when a failure occurs. -/
inductive Construct where
  | statement
  | block
  | conditional
  | exhaust
  | functionCall
  | group
  | factor
  | binaryOperation
  deriving DecidableEq, Repr

/-- Modelled from the spec: a `ParseError` carries the kind of the failure, the
position of the token at which the mismatch occurred (the length of the
sequence at the end of the input) and the construct being parsed. -/
structure ParseError where
  kind : ParseErrorKind
  position : Nat
  construct : Construct
  deriving DecidableEq, Repr

/-- Modelled from the spec: what the specification leaves to the language
definition, namely the binding power of each binary operator and how the
syntax around an `exhaust` keyword (the token sequence and the position of the
keyword) decides whether the body binds the implicit loop variable. -/
structure Language where
  precedence : String → Nat
  exhaustUsesVariable : List Token → Nat → Bool

/-- The members of class `TreeGenerator`: the token sequence, the index of the
next unconsumed token and the running left-hand side. -/
structure TreeGenerator where
  tokens : List Token
  marker : Nat
  runningLHS : Option TreeNode

/-- Modelled from the spec: the outcome of a parse method, either a value with
the generator state after it, or a `ParseError`; `outOfFuel` is the outcome of
a descent deeper than the fuel given. -/
inductive ParseResult (α : Type) where
  | ok (value : α) (next : TreeGenerator)
  | error (e : ParseError)
  | outOfFuel

/-- Sequencing of two parse steps: a failure of the first is the failure of both. -/
def ParseResult.bind {α β : Type} (r : ParseResult α)
    (f : α → TreeGenerator → ParseResult β) : ParseResult β :=
  match r with
  | .ok a g => f a g
  | .error e => .error e
  | .outOfFuel => .outOfFuel

/-- `TreeGenerator(std::vector<Token>)`: `marker = 0`, `runningLHS = nullptr`. -/
def newTreeGenerator (tokens : List Token) : TreeGenerator :=
  { tokens := tokens, marker := 0, runningLHS := none }

/-- The token is the delimiter with the given text. -/
def Token.isDelimiter (t : Token) (s : String) : Bool :=
  t.kind == TokenClass.delimiter && t.text == s

/-- The token is the keyword with the given text. -/
def Token.isKeyword (t : Token) (s : String) : Bool :=
  t.kind == TokenClass.keyword && t.text == s

namespace TreeGenerator

/-- The current token, if any. -/
def peek (g : TreeGenerator) : Option Token := g.tokens[g.marker]?

/-- The token after the current one, if any. -/
def peekNext (g : TreeGenerator) : Option Token := g.tokens[g.marker + 1]?

/-- Move the cursor past the current token. -/
def advance (g : TreeGenerator) : TreeGenerator := { g with marker := g.marker + 1 }

/-- Store a node as the running left-hand side. -/
def setLHS (g : TreeGenerator) (lhs : TreeNode) : TreeGenerator :=
  { g with runningLHS := some lhs }

/-- The current token is an identifier immediately followed by the
argument-list open delimiter. -/
def atFunctionCall (g : TreeGenerator) : Bool :=
  match g.peek, g.peekNext with
  | some t, some u => t.kind == TokenClass.identifier && u.isDelimiter "("
  | _, _ => false

/-- Modelled from the spec: consume the given delimiter; `UnexpectedToken` at
another token, `UnexpectedEndOfInput` at the end of the sequence. -/
def expectDelimiter (g : TreeGenerator) (s : String) (c : Construct) : ParseResult Unit :=
  match g.peek with
  | none => .error ⟨.UnexpectedEndOfInput, g.marker, c⟩
  | some t => if t.isDelimiter s then .ok () g.advance else .error ⟨.UnexpectedToken, g.marker, c⟩

/-- Modelled from the spec: consume the given keyword. -/
def expectKeyword (g : TreeGenerator) (s : String) (c : Construct) : ParseResult Unit :=
  match g.peek with
  | none => .error ⟨.UnexpectedEndOfInput, g.marker, c⟩
  | some t => if t.isKeyword s then .ok () g.advance else .error ⟨.UnexpectedToken, g.marker, c⟩

end TreeGenerator

mutual
/-- Modelled from the spec: `TreeGenerator::parseStatement`, absent from the
sources. Statement parsing: dispatch on the current token between function
call, conditional, exhaust loop, nested block and bare expression. -/
def parseStatement (L : Language) : Nat → TreeGenerator → ParseResult TreeNode
  | 0, _ => .outOfFuel
  | fuel + 1, g =>
      match g.peek with
      | none => .error ⟨.UnexpectedEndOfInput, g.marker, .statement⟩
      | some t =>
          if g.atFunctionCall then parseFunctionCall L fuel g
          else if t.isKeyword "if" then parseIf L fuel g
          else if t.isKeyword "exhaust" then parseExhaust L fuel g
          else if t.isDelimiter "\x7b" then parseBlock L fuel g
          else parseExpression L fuel g
/-- Modelled from the spec: `TreeGenerator::parseBlock`, absent from the
sources. Block parsing: consume the block-open delimiter, then parse
statements until the block-close delimiter. -/
def parseBlock (L : Language) : Nat → TreeGenerator → ParseResult TreeNode
  | 0, _ => .outOfFuel
  | fuel + 1, g =>
      (g.expectDelimiter "\x7b" .block).bind fun _ g1 => parseBlockStatements L fuel [] g1
/-- Modelled from the spec: the loop of block parsing: statements are
accumulated in source order until the block-close delimiter; reaching the end
of the input first is `UnexpectedEndOfInput`. -/
def parseBlockStatements (L : Language) :
    Nat → List (Option TreeNode) → TreeGenerator → ParseResult TreeNode
  | 0, _, _ => .outOfFuel
  | fuel + 1, body, g =>
      match g.peek with
      | none => .error ⟨.UnexpectedEndOfInput, g.marker, .block⟩
      | some t =>
          if t.isDelimiter "\x7d" then .ok (newBlockNode body) g.advance
          else (parseStatement L fuel g).bind fun s g1 =>
            parseBlockStatements L fuel (body ++ [some s]) g1
/-- Modelled from the spec: `TreeGenerator::parseIf`, absent from the sources.
Conditional parsing: the `if` keyword, the parenthesized or bare condition
expression, the body. -/
def parseIf (L : Language) : Nat → TreeGenerator → ParseResult TreeNode
  | 0, _ => .outOfFuel
  | fuel + 1, g =>
      (g.expectKeyword "if" .conditional).bind fun _ g1 =>
      (parseConditional L fuel g1).bind fun condition g2 =>
      (parseStatement L fuel g2).bind fun body g3 =>
      .ok (newIfNode (some condition) (some body)) g3
/-- Modelled from the spec: `TreeGenerator::parseConditional`, absent from the
sources. The condition of a conditional: a parenthesized or a bare condition
expression. -/
def parseConditional (L : Language) : Nat → TreeGenerator → ParseResult TreeNode
  | 0, _ => .outOfFuel
  | fuel + 1, g =>
      match g.peek with
      | none => .error ⟨.UnexpectedEndOfInput, g.marker, .conditional⟩
      | some t =>
          if t.isDelimiter "(" then
            (parseExpression L fuel g.advance).bind fun condition g1 =>
            (g1.expectDelimiter ")" .conditional).bind fun _ g2 => .ok condition g2
          else parseExpression L fuel g
/-- Modelled from the spec: `TreeGenerator::parseExhaust`, absent from the
sources. Exhaust parsing: the `exhaust` keyword, the condition expression, the
flag decided by the surrounding syntax, the body. -/
def parseExhaust (L : Language) : Nat → TreeGenerator → ParseResult TreeNode
  | 0, _ => .outOfFuel
  | fuel + 1, g =>
      (g.expectKeyword "exhaust" .exhaust).bind fun _ g1 =>
      (parseExpression L fuel g1).bind fun condition g2 =>
      (parseStatement L fuel g2).bind fun body g3 =>
      .ok (newExhaustNode (some condition) (some body) (L.exhaustUsesVariable g.tokens g.marker)) g3
/-- Modelled from the spec: `TreeGenerator::parseFunctionCall`, absent from the
sources. Function-call parsing: an identifier, the argument-list open
delimiter, zero or more comma-separated argument expressions, the close
delimiter. -/
def parseFunctionCall (L : Language) : Nat → TreeGenerator → ParseResult TreeNode
  | 0, _ => .outOfFuel
  | fuel + 1, g =>
      match g.peek with
      | none => .error ⟨.UnexpectedEndOfInput, g.marker, .functionCall⟩
      | some name =>
          if name.kind == TokenClass.identifier then
            (g.advance.expectDelimiter "(" .functionCall).bind fun _ g1 =>
            match g1.peek with
            | none => .error ⟨.UnexpectedEndOfInput, g1.marker, .functionCall⟩
            | some t =>
                if t.isDelimiter ")" then .ok (newFunctionCallNode name.text []) g1.advance
                else (parseExpression L fuel g1).bind fun argument g2 =>
                  parseArguments L fuel name.text [some argument] g2
          else .error ⟨.UnexpectedToken, g.marker, .functionCall⟩
/-- Modelled from the spec: the loop of function-call parsing after the first
argument: a comma and a further argument expression, or the close delimiter. -/
def parseArguments (L : Language) :
    Nat → String → List (Option TreeNode) → TreeGenerator → ParseResult TreeNode
  | 0, _, _, _ => .outOfFuel
  | fuel + 1, name, arguments, g =>
      match g.peek with
      | none => .error ⟨.UnexpectedEndOfInput, g.marker, .functionCall⟩
      | some t =>
          if t.isDelimiter ")" then .ok (newFunctionCallNode name arguments) g.advance
          else if t.isDelimiter "," then
            (parseExpression L fuel g.advance).bind fun argument g1 =>
              parseArguments L fuel name (arguments ++ [some argument]) g1
          else .error ⟨.UnexpectedToken, g.marker, .functionCall⟩
/-- Modelled from the spec: `TreeGenerator::parseGroup`, absent from the
sources. Group parsing: an open parenthesis, one expression, the matching close
parenthesis. -/
def parseGroup (L : Language) : Nat → TreeGenerator → ParseResult TreeNode
  | 0, _ => .outOfFuel
  | fuel + 1, g =>
      (g.expectDelimiter "(" .group).bind fun _ g1 =>
      (parseExpression L fuel g1).bind fun expression g2 =>
      (g2.expectDelimiter ")" .group).bind fun _ g3 =>
      .ok (newGroupNode (some expression)) g3
/-- Modelled from the spec: `TreeGenerator::parseFactor`, absent from the
sources. Factor parsing: a parenthesized Group, a function call, or a
literal or identifier Value, chosen by lookahead; any other token is a
`MalformedExpression`. -/
def parseFactor (L : Language) : Nat → TreeGenerator → ParseResult TreeNode
  | 0, _ => .outOfFuel
  | fuel + 1, g =>
      match g.peek with
      | none => .error ⟨.UnexpectedEndOfInput, g.marker, .factor⟩
      | some t =>
          if t.isDelimiter "(" then parseGroup L fuel g
          else if g.atFunctionCall then parseFunctionCall L fuel g
          else if t.kind == TokenClass.identifier then .ok (newValueNode t.text false) g.advance
          else if t.kind == TokenClass.literal then .ok (newValueNode t.text true) g.advance
          else .error ⟨.MalformedExpression, g.marker, .factor⟩
/-- Modelled from the spec: `TreeGenerator::parseBinaryOperation`, absent from
the sources. Binary-operator parsing: with the running left-hand side as left
operand, consume the operator, parse the next factor as right-hand side, let
operators of higher binding power take that factor first (recursive calls), and
combine into an Operator node. -/
def parseBinaryOperation (L : Language) : Nat → TreeGenerator → ParseResult TreeNode
  | 0, _ => .outOfFuel
  | fuel + 1, g =>
      match g.peek with
      | none => .error ⟨.UnexpectedEndOfInput, g.marker, .binaryOperation⟩
      | some t =>
          if t.kind == TokenClass.operator then
            (parseFactor L fuel g.advance).bind fun factor g1 =>
            (parseTighter L fuel t.text factor g1).bind fun rhs g2 =>
            .ok (newOperatorNode t.text g.runningLHS (some rhs)) g2
          else .error ⟨.UnexpectedToken, g.marker, .binaryOperation⟩
/-- Modelled from the spec: the recursion of binary-operator parsing: while
the next token is an operator binding tighter than `op`, the right-hand side
becomes the running left-hand side of that operator's own operation. -/
def parseTighter (L : Language) :
    Nat → String → TreeNode → TreeGenerator → ParseResult TreeNode
  | 0, _, _, _ => .outOfFuel
  | fuel + 1, op, rhs, g =>
      match g.peek with
      | none => .ok rhs g
      | some t =>
          if t.kind == TokenClass.operator && decide (L.precedence op < L.precedence t.text) then
            (parseBinaryOperation L fuel (g.setLHS rhs)).bind fun node g1 =>
              parseTighter L fuel op node g1
          else .ok rhs g
/-- Modelled from the spec: `TreeGenerator::parseExpression`, absent from the
sources. Expression parsing: a factor becomes the running left-hand side, then
binary operations are folded onto it from left to right. -/
def parseExpression (L : Language) : Nat → TreeGenerator → ParseResult TreeNode
  | 0, _ => .outOfFuel
  | fuel + 1, g =>
      (parseFactor L fuel g).bind fun factor g1 => foldOperators L fuel factor g1
/-- Modelled from the spec: the left-to-right fold of binary-operator parsing:
while the next token is a binary operator, the operation parsed from the
running left-hand side becomes the new running left-hand side. -/
def foldOperators (L : Language) : Nat → TreeNode → TreeGenerator → ParseResult TreeNode
  | 0, _, _ => .outOfFuel
  | fuel + 1, lhs, g =>
      match g.peek with
      | none => .ok lhs g
      | some t =>
          if t.kind == TokenClass.operator then
            (parseBinaryOperation L fuel (g.setLHS lhs)).bind fun node g1 =>
              foldOperators L fuel node g1
          else .ok lhs g
end

/-- Modelled from the spec: the loop of `TreeGenerator::buildTree`: statements
are parsed and accumulated until the end of the token sequence. -/
def buildStatements (L : Language) :
    Nat → List (Option TreeNode) → TreeGenerator → ParseResult (List (Option TreeNode))
  | 0, _, _ => .outOfFuel
  | fuel + 1, nodes, g =>
      match g.peek with
      | none => .ok nodes g
      | some _ => (parseStatement L fuel g).bind fun s g1 =>
          buildStatements L fuel (nodes ++ [some s]) g1

/-- Fuel that suffices for the descent over the tokens not yet consumed. -/
def TreeGenerator.fuel (g : TreeGenerator) : Nat := 8 * (g.tokens.length - g.marker) + 8

/-- Modelled from the spec: `TreeGenerator::buildTree`, absent from the
sources. Build: the ordered sequence of top-level nodes of the whole program,
or the `ParseError` of the first construct that fails; no partial tree. -/
def buildTree (L : Language) (g : TreeGenerator) : ParseResult (List (Option TreeNode)) :=
  buildStatements L g.fuel [] g

/-- What is known of the result of a parse step run with `fuel`: it is not
`outOfFuel` when the fuel reaches `budget`, a success ends in a state satisfying
`Q`, a failure satisfies `E`. -/
def Outcome {α : Type} (budget fuel : Nat) (Q : TreeGenerator → Prop) (E : ParseError → Prop)
    (r : ParseResult α) : Prop :=
  (budget ≤ fuel → r ≠ ParseResult.outOfFuel) ∧
    (∀ a g1, r = ParseResult.ok a g1 → Q g1) ∧ (∀ e, r = ParseResult.error e → E e)

/-- The value of a successful parse. -/
def ParseResult.value? {α : Type} : ParseResult α → Option α
  | .ok a _ => some a
  | _ => none

/-- The tokens of `x op1 y op2 z` for three identifiers and two operators. -/
def binaryTokens (x op1 y op2 z : String) : List Token :=
  [⟨.identifier, x⟩, ⟨.operator, op1⟩, ⟨.identifier, y⟩, ⟨.operator, op2⟩, ⟨.identifier, z⟩]

mutual
/-- The two trees have the same shape, the same class at every position and
the same string payloads (`value`, `op`, `functionName`); with `tags` set, also
the same `type` member at every position. The flags `isConstant` and
`usesVariable` are not compared. -/
def TreeNode.sameUpToFlags (tags : Bool) : TreeNode → TreeNode → Bool
  | .FunctionCallNode ty1 n1 a1, .FunctionCallNode ty2 n2 a2 =>
      (!tags || ty1 == ty2) && n1 == n2 && eachSameUpToFlags tags a1 a2
  | .GroupNode ty1 e1, .GroupNode ty2 e2 => (!tags || ty1 == ty2) && ptrSameUpToFlags tags e1 e2
  | .ValueNode ty1 v1 _, .ValueNode ty2 v2 _ => (!tags || ty1 == ty2) && v1 == v2
  | .BlockNode ty1 b1, .BlockNode ty2 b2 => (!tags || ty1 == ty2) && eachSameUpToFlags tags b1 b2
  | .ExhaustNode ty1 c1 b1 _, .ExhaustNode ty2 c2 b2 _ =>
      (!tags || ty1 == ty2) && ptrSameUpToFlags tags c1 c2 && ptrSameUpToFlags tags b1 b2
  | .IfNode ty1 c1 b1, .IfNode ty2 c2 b2 =>
      (!tags || ty1 == ty2) && ptrSameUpToFlags tags c1 c2 && ptrSameUpToFlags tags b1 b2
  | .OperatorNode ty1 o1 l1 r1, .OperatorNode ty2 o2 l2 r2 =>
      (!tags || ty1 == ty2) && o1 == o2 && ptrSameUpToFlags tags l1 l2
        && ptrSameUpToFlags tags r1 r2
  | _, _ => false
/-- `sameUpToFlags` through two pointers: both null, or both pointing to such trees. -/
def ptrSameUpToFlags (tags : Bool) : Option TreeNode → Option TreeNode → Bool
  | none, none => true
  | some a, some b => a.sameUpToFlags tags b
  | _, _ => false
/-- `sameUpToFlags` through two sequences of pointers of the same length. -/
def eachSameUpToFlags (tags : Bool) : List (Option TreeNode) → List (Option TreeNode) → Bool
  | [], [] => true
  | a :: as, b :: bs => ptrSameUpToFlags tags a b && eachSameUpToFlags tags as bs
  | _, _ => false
end

/-- The trees are equal except for the `isConstant` flag of Value nodes and the
`usesVariable` flag of Exhaust nodes. -/
def TreeNode.equalUpToFlags (t1 t2 : TreeNode) : Bool := t1.sameUpToFlags true t2

/-- The trees have the same shape, the same class at every position and the
same string payloads. -/
def TreeNode.sameOutline (t1 t2 : TreeNode) : Bool := t1.sameUpToFlags false t2

mutual
/-- Every node of the subtree carries the tag of its own class in `type`, as
the constructors leave it. -/
def TreeNode.wellTagged : TreeNode → Bool
  | .FunctionCallNode ty _ a => ty == TN_FUNC_CALL && eachWellTagged a
  | .GroupNode ty e => ty == TN_GROUP && ptrWellTagged e
  | .ValueNode ty _ _ => ty == TN_VALUE
  | .BlockNode ty b => ty == TN_BLOCK && eachWellTagged b
  | .ExhaustNode ty c b _ => ty == TN_EXHAUST && ptrWellTagged c && ptrWellTagged b
  | .IfNode ty c b => ty == TN_IF && ptrWellTagged c && ptrWellTagged b
  | .OperatorNode ty _ l r => ty == TN_OPERATOR && ptrWellTagged l && ptrWellTagged r
/-- `wellTagged` below a pointer. -/
def ptrWellTagged : Option TreeNode → Bool
  | none => true
  | some node => node.wellTagged
/-- `wellTagged` below the pointers of a sequence. -/
def eachWellTagged : List (Option TreeNode) → Bool
  | [] => true
  | node :: rest => ptrWellTagged node && eachWellTagged rest
end

/-- Two spaces inserted at the start of every line of a text, character by
character: `atStart` tells whether the next character begins a line. -/
def indentFrom : Bool → List Char → List Char
  | _, [] => []
  | true, c :: cs => ' ' :: ' ' :: c :: indentFrom (c == '\n') cs
  | false, c :: cs => c :: indentFrom (c == '\n') cs

/-- The text with two spaces inserted at the start of every line. -/
def indentText (s : String) : String := String.mk (indentFrom true s.data)

/-- A label as `print` writes it for newline-free payloads: it holds no
newline and begins with a character other than a space. -/
def cleanLabel (s : String) : Prop :=
  '\n' ∉ s.data ∧ ∃ c rest, s.data = c :: rest ∧ c ≠ ' '

/-- The listing is empty or begins with an entry of depth at most `d`. -/
def headDepthLE (d : Nat) : List (Nat × String) → Prop
  | [] => True
  | entry :: _ => entry.1 ≤ d

/-- The first character of the label `print` writes for a node of the class. -/
def NodeClass.initial : NodeClass → Char
  | .functionCall => 'F'
  | .group => 'G'
  | .value => 'V'
  | .block => 'B'
  | .exhaust => 'E'
  | .ifNode => 'I'
  | .operator => 'O'

/-- The outcome of a parse step that needed a token at the end of the token
sequence `ts`: `UnexpectedEndOfInput` reported at the end of `ts`, or a descent
deeper than the fuel. -/
def FailsAtEnd {α : Type} (ts : List Token) (r : ParseResult α) : Prop :=
  (∃ c, r = ParseResult.error ⟨.UnexpectedEndOfInput, ts.length, c⟩) ∨
    r = ParseResult.outOfFuel

theorem indentLoop_eq (n : Nat) (out : String) :
    indentLoop n out = out ++ String.mk (List.replicate (2 * n) ' ') := by
  induction n generalizing out with
  | zero => apply String.ext; simp [indentLoop]
  | succ k ih =>
      rw [indentLoop, ih]
      apply String.ext
      simp [String.data_append, Nat.mul_succ, List.replicate_succ]

theorem printIndent_eq (level : Int) (out : String) :
    printIndent level out = out ++ indentation level := by
  simp [printIndent, indentation, indentLoop_eq]

mutual
theorem print_eq : ∀ (t : TreeNode) (level : Int) (out : String),
    t.print level out = if t.noNullChild then some (out ++ t.written level) else none
  | .FunctionCallNode _ _ a, level, out => by
      simp only [TreeNode.print, TreeNode.noNullChild, TreeNode.written, printIndent_eq]
      rw [printEach_eq a]
      simp [String.append_assoc]
  | .GroupNode _ e, level, out => by
      simp only [TreeNode.print, TreeNode.noNullChild, TreeNode.written, printIndent_eq]
      rw [printPtr_eq e]
      simp [String.append_assoc]
  | .ValueNode _ _ _, level, out => by
      simp [TreeNode.print, TreeNode.noNullChild, TreeNode.written, printIndent_eq,
        String.append_assoc]
  | .BlockNode _ b, level, out => by
      simp only [TreeNode.print, TreeNode.noNullChild, TreeNode.written, printIndent_eq]
      rw [printEach_eq b]
      simp [String.append_assoc]
  | .ExhaustNode _ c b _, level, out => by
      simp only [TreeNode.print, TreeNode.noNullChild, TreeNode.written, printIndent_eq]
      rw [printPtr_eq c]
      by_cases hc : ptrNonNull c = true
      · simp only [hc, if_true, Bool.true_and]
        rw [printPtr_eq b]
        simp [String.append_assoc]
      · simp [hc]
  | .IfNode _ c b, level, out => by
      simp only [TreeNode.print, TreeNode.noNullChild, TreeNode.written, printIndent_eq]
      rw [printPtr_eq c]
      by_cases hc : ptrNonNull c = true
      · simp only [hc, if_true, Bool.true_and]
        rw [printPtr_eq b]
        simp [String.append_assoc]
      · simp [hc]
  | .OperatorNode _ _ l r, level, out => by
      simp only [TreeNode.print, TreeNode.noNullChild, TreeNode.written, printIndent_eq]
      rw [printPtr_eq l]
      by_cases hc : ptrNonNull l = true
      · simp only [hc, if_true, Bool.true_and]
        rw [printPtr_eq r]
        simp [String.append_assoc]
      · simp [hc]
theorem printPtr_eq : ∀ (p : Option TreeNode) (level : Int) (out : String),
    printPtr p level out = if ptrNonNull p then some (out ++ ptrWritten p level) else none
  | none, _, _ => by simp [printPtr, ptrNonNull]
  | some t, level, out => by
      simp only [printPtr, ptrNonNull, ptrWritten]
      exact print_eq t level out
theorem printEach_eq : ∀ (ps : List (Option TreeNode)) (level : Int) (out : String),
    printEach ps level out = if eachNonNull ps then some (out ++ eachWritten ps level) else none
  | [], _, _ => by simp [printEach, eachNonNull, eachWritten]
  | p :: rest, level, out => by
      simp only [printEach, eachNonNull, eachWritten]
      rw [printPtr_eq p]
      by_cases hc : ptrNonNull p = true
      · simp only [hc, if_true, Bool.true_and]
        rw [printEach_eq rest]
        simp [String.append_assoc]
      · simp [hc]
end

theorem lineCount_append (a b : String) : lineCount (a ++ b) = lineCount a + lineCount b := by
  simp [lineCount, String.data_append, List.count_append]

theorem lineCount_indentation (level : Int) : lineCount (indentation level) = 0 := by
  simp [lineCount, indentation, List.count_replicate]

theorem lineCount_of_noNewline (s : String) (h : noNewline s = true) : lineCount s = 0 := by
  simp only [noNewline, lineCount] at *
  rw [List.count_eq_zero]
  intro hm
  simp_all

mutual
theorem written_lineCount : ∀ (t : TreeNode) (level : Int), t.payloadNoNewline = true →
    lineCount (t.written level) = t.nodeCount
  | .FunctionCallNode _ n a, level, h => by
      simp only [TreeNode.payloadNoNewline, Bool.and_eq_true] at h
      simp only [TreeNode.written, TreeNode.nodeCount, lineCount_append, lineCount_indentation,
        lineCount_of_noNewline n h.1, eachWritten_lineCount a _ h.2]
      simp [lineCount]
  | .GroupNode _ e, level, h => by
      simp only [TreeNode.payloadNoNewline] at h
      simp only [TreeNode.written, TreeNode.nodeCount, lineCount_append, lineCount_indentation,
        ptrWritten_lineCount e _ h]
      simp [lineCount]
  | .ValueNode _ v _, level, h => by
      simp only [TreeNode.payloadNoNewline] at h
      simp only [TreeNode.written, TreeNode.nodeCount, lineCount_append, lineCount_indentation,
        lineCount_of_noNewline v h]
      simp [lineCount]
  | .BlockNode _ b, level, h => by
      simp only [TreeNode.payloadNoNewline] at h
      simp only [TreeNode.written, TreeNode.nodeCount, lineCount_append, lineCount_indentation,
        eachWritten_lineCount b _ h]
      simp [lineCount]
  | .ExhaustNode _ c b _, level, h => by
      simp only [TreeNode.payloadNoNewline, Bool.and_eq_true] at h
      simp only [TreeNode.written, TreeNode.nodeCount, lineCount_append, lineCount_indentation,
        ptrWritten_lineCount c _ h.1, ptrWritten_lineCount b _ h.2]
      simp [lineCount]
  | .IfNode _ c b, level, h => by
      simp only [TreeNode.payloadNoNewline, Bool.and_eq_true] at h
      simp only [TreeNode.written, TreeNode.nodeCount, lineCount_append, lineCount_indentation,
        ptrWritten_lineCount c _ h.1, ptrWritten_lineCount b _ h.2]
      simp [lineCount]
  | .OperatorNode _ o l r, level, h => by
      simp only [TreeNode.payloadNoNewline, Bool.and_eq_true] at h
      simp only [TreeNode.written, TreeNode.nodeCount, lineCount_append, lineCount_indentation,
        lineCount_of_noNewline o h.1.1, ptrWritten_lineCount l _ h.1.2,
        ptrWritten_lineCount r _ h.2]
      simp [lineCount]
theorem ptrWritten_lineCount : ∀ (p : Option TreeNode) (level : Int),
    ptrPayloadNoNewline p = true → lineCount (ptrWritten p level) = ptrNodeCount p
  | none, _, _ => by simp [ptrWritten, ptrNodeCount, lineCount]
  | some t, level, h => by
      simp only [ptrPayloadNoNewline] at h
      simp only [ptrWritten, ptrNodeCount]
      exact written_lineCount t level h
theorem eachWritten_lineCount : ∀ (ps : List (Option TreeNode)) (level : Int),
    eachPayloadNoNewline ps = true → lineCount (eachWritten ps level) = eachNodeCount ps
  | [], _, _ => by simp [eachWritten, eachNodeCount, lineCount]
  | p :: rest, level, h => by
      simp only [eachPayloadNoNewline, Bool.and_eq_true] at h
      simp only [eachWritten, eachNodeCount, lineCount_append, ptrWritten_lineCount p _ h.1,
        eachWritten_lineCount rest _ h.2]
end

/-- The text a node writes ends with the newline of its last line. -/
theorem getLast_append_of_getLast (a b : String) (c : Char) (h : b.data.getLast? = some c) :
    (a ++ b).data.getLast? = some c := by
  simp [String.data_append, List.getLast?_append, h]

theorem getLast_append_empty_or (a b : String) (c : Char) (ha : a.data.getLast? = some c)
    (hb : b = "" ∨ b.data.getLast? = some c) : (a ++ b).data.getLast? = some c := by
  rcases hb with hb | hb
  · subst hb; simpa using ha
  · exact getLast_append_of_getLast a b c hb

mutual
theorem ptrWritten_getLast : ∀ (p : Option TreeNode) (level : Int),
    ptrWritten p level = "" ∨ (ptrWritten p level).data.getLast? = some '\n'
  | none, _ => by simp [ptrWritten]
  | some t, level => by
      right
      simp only [ptrWritten]
      exact written_getLast t level
theorem eachWritten_getLast : ∀ (ps : List (Option TreeNode)) (level : Int),
    eachWritten ps level = "" ∨ (eachWritten ps level).data.getLast? = some '\n'
  | [], _ => by simp [eachWritten]
  | p :: rest, level => by
      simp only [eachWritten]
      rcases eachWritten_getLast rest level with h | h
      · rw [h]
        simpa using ptrWritten_getLast p level
      · right
        exact getLast_append_of_getLast _ _ _ h
theorem written_getLast : ∀ (t : TreeNode) (level : Int),
    (t.written level).data.getLast? = some '\n'
  | .FunctionCallNode _ n a, level => by
      simp only [TreeNode.written]
      exact getLast_append_empty_or _ _ _ (getLast_append_of_getLast _ _ _ rfl)
        (eachWritten_getLast a _)
  | .GroupNode _ e, level => by
      simp only [TreeNode.written]
      exact getLast_append_empty_or _ _ _ (getLast_append_of_getLast _ _ _ rfl)
        (ptrWritten_getLast e _)
  | .ValueNode _ v _, level => by
      simp only [TreeNode.written]
      exact getLast_append_of_getLast _ _ _ rfl
  | .BlockNode _ b, level => by
      simp only [TreeNode.written]
      exact getLast_append_empty_or _ _ _ (getLast_append_of_getLast _ _ _ rfl)
        (eachWritten_getLast b _)
  | .ExhaustNode _ c b _, level => by
      simp only [TreeNode.written]
      exact getLast_append_empty_or _ _ _ (getLast_append_empty_or _ _ _
        (getLast_append_of_getLast _ _ _ rfl) (ptrWritten_getLast c _)) (ptrWritten_getLast b _)
  | .IfNode _ c b, level => by
      simp only [TreeNode.written]
      exact getLast_append_empty_or _ _ _ (getLast_append_empty_or _ _ _
        (getLast_append_of_getLast _ _ _ rfl) (ptrWritten_getLast c _)) (ptrWritten_getLast b _)
  | .OperatorNode _ o l r, level => by
      simp only [TreeNode.written]
      exact getLast_append_empty_or _ _ _ (getLast_append_empty_or _ _ _
        (getLast_append_of_getLast _ _ _ rfl) (ptrWritten_getLast l _)) (ptrWritten_getLast r _)
end



/-! ## C1 : one node per line -/

/-- C1 (counterexample): a single `ValueNode` whose text holds a newline has one
node and no null child, but `print` writes two lines for it, so the number of
lines is not the number of nodes. -/
theorem one_line_per_node_fails_on_newline_payload :
    (newValueNode "a\nb" true).noNullChild = true ∧
    (newValueNode "a\nb" true).nodeCount = 1 ∧
    (newValueNode "a\nb" true).print 0 "" = some "Value : a\nb\n" ∧
    lineCount "Value : a\nb\n" = 2 ∧
    ¬ OneLinePerNode (newValueNode "a\nb" true) 0 := by
  refine ⟨by decide, by decide, by decide, by decide, ?_⟩
  rintro ⟨text, h1, _, h3⟩
  have h : (newValueNode "a\nb" true).print 0 "" = some "Value : a\nb\n" := by decide
  rw [h] at h1
  cases h1
  revert h3
  decide

/-- C1 (amended): for every tree with no null child whose string payloads hold
no newline character, for every level and every state of the stream,
`print level` completes and appends a newline-terminated text with exactly as
many lines as the subtree has nodes. -/
theorem print_one_line_per_node (t : TreeNode) (level : Int) (out : String)
    (hnull : t.noNullChild = true) (hpayload : t.payloadNoNewline = true) :
    ∃ text, t.print level out = some (out ++ text) ∧
      text.data.getLast? = some '\n' ∧ lineCount text = t.nodeCount ∧
      OneLinePerNode t level := by
  refine ⟨t.written level, ?_, written_getLast t level, written_lineCount t level hpayload,
    t.written level, ?_, written_getLast t level, written_lineCount t level hpayload⟩
  · simp [print_eq, hnull]
  · simp [print_eq, hnull]

/-- C1 (witness): the operator tree `a + b` printed at level 1. -/
theorem print_one_line_per_node_witness :
    ∃ text, (newOperatorNode "+" (some (newValueNode "a" false))
        (some (newValueNode "b" false))).print 1 "" = some ("" ++ text) ∧
      text.data.getLast? = some '\n' ∧
      lineCount text = (newOperatorNode "+" (some (newValueNode "a" false))
        (some (newValueNode "b" false))).nodeCount ∧
      OneLinePerNode (newOperatorNode "+" (some (newValueNode "a" false))
        (some (newValueNode "b" false))) 1 :=
  print_one_line_per_node _ 1 "" (by decide) (by decide)

/-! ## C3 : printing twice -/

/-- C3: for every tree with no null child and every level, `print level`
completes, leaves the tree as it was, and a second `print level` on the
resulting state appends exactly the text the first call appended. -/
theorem print_twice_same_text (w : World) (level : Int) (hnull : w.root.noNullChild = true) :
    ∃ text, w.callPrint level = some { root := w.root, cout := w.cout ++ text } ∧
      World.callPrint { root := w.root, cout := w.cout ++ text } level =
        some { root := w.root, cout := w.cout ++ text ++ text } := by
  refine ⟨w.root.written level, ?_, ?_⟩
  · simp [World.callPrint, print_eq, hnull]
  · simp [World.callPrint, print_eq, hnull]

/-- C3 (witness): a group around a value, printed twice at level 0. -/
theorem print_twice_same_text_witness :
    ∃ text, World.callPrint ⟨newGroupNode (some (newValueNode "x" true)), ""⟩ 0 =
        some { root := newGroupNode (some (newValueNode "x" true)), cout := "" ++ text } ∧
      World.callPrint { root := newGroupNode (some (newValueNode "x" true)), cout := "" ++ text } 0 =
        some { root := newGroupNode (some (newValueNode "x" true)), cout := "" ++ text ++ text } :=
  print_twice_same_text ⟨newGroupNode (some (newValueNode "x" true)), ""⟩ 0 (by decide)

/-! ## C4 : kind tags -/

/-- C4: each of the seven constructors yields a node whose `type` is the tag of
its own class, never `TN_UNDEFINED`; the tags are pairwise distinct, and two
constructed nodes with the same `type` belong to the same class. -/
theorem constructor_sets_own_tag :
    (∀ name args, (newFunctionCallNode name args).type = TN_FUNC_CALL) ∧
    (∀ expr, (newGroupNode expr).type = TN_GROUP) ∧
    (∀ v c, (newValueNode v c).type = TN_VALUE) ∧
    (∀ op l r, (newOperatorNode op l r).type = TN_OPERATOR) ∧
    (∀ body, (newBlockNode body).type = TN_BLOCK) ∧
    (∀ cond body, (newIfNode cond body).type = TN_IF) ∧
    (∀ cond body u, (newExhaustNode cond body u).type = TN_EXHAUST) ∧
    (∀ t, Constructed t → t.type = t.nodeClass.tag ∧ t.type ≠ TN_UNDEFINED) ∧
    [TN_FUNC_CALL, TN_GROUP, TN_VALUE, TN_OPERATOR, TN_BLOCK, TN_IF, TN_EXHAUST].Nodup ∧
    (∀ t1 t2, Constructed t1 → Constructed t2 → t1.type = t2.type →
      t1.nodeClass = t2.nodeClass) := by
  have htag : ∀ t, Constructed t → t.type = t.nodeClass.tag := by
    intro t h
    cases h <;> rfl
  have hinj : ∀ a b : NodeClass, a.tag = b.tag → a = b := by
    intro a b
    cases a <;> cases b <;> decide
  refine ⟨fun _ _ => rfl, fun _ => rfl, fun _ _ => rfl, fun _ _ _ => rfl, fun _ => rfl,
    fun _ _ => rfl, fun _ _ _ => rfl, ?_, by decide, ?_⟩
  · intro t h
    refine ⟨htag t h, ?_⟩
    rw [htag t h]
    cases t.nodeClass <;> decide
  · intro t1 t2 h1 h2 h
    rw [htag t1 h1, htag t2 h2] at h
    exact hinj _ _ h

/-! ## C5 : null children -/

/-- C5 (counterexample): the constructors accept null pointers and store them:
an Operator built from two null operands has null `lhs` and `rhs`, a Group built
from a null expression has a null `expression`, and a FunctionCall built from a
sequence holding a null pointer keeps it. -/
theorem constructors_accept_null_children :
    Constructed (newOperatorNode "+" none none) ∧
    (newOperatorNode "+" none none).lhs = some none ∧
    (newOperatorNode "+" none none).rhs = some none ∧
    Constructed (newGroupNode none) ∧
    (newGroupNode none).expression = some none ∧
    Constructed (newFunctionCallNode "f" [none]) ∧
    (newFunctionCallNode "f" [none]).functionArguments = some [none] ∧
    ¬ (∀ t, Constructed t → t.childrenNonNull = true) :=
  ⟨.operator "+" none none, rfl, rfl, .group none, rfl, .functionCall "f" [none], rfl,
    fun h => absurd (h _ (.group none)) (by decide)⟩

/-- C5 (amended): the constructors store the child pointers they are given
without a check, so a constructed node has a null child exactly when a null
pointer was passed: an Operator's `lhs` and `rhs` are the two operands passed
and both are non-null exactly when both operands were, a Group's `expression`
is non-null exactly when the expression passed was, and a FunctionCall's
argument sequence has no null element exactly when the sequence passed had
none. -/
theorem constructor_children_are_arguments :
    (∀ op l r, (newOperatorNode op l r).lhs = some l ∧ (newOperatorNode op l r).rhs = some r ∧
      (newOperatorNode op l r).childrenNonNull = (l.isSome && r.isSome)) ∧
    (∀ expr, (newGroupNode expr).expression = some expr ∧
      (newGroupNode expr).childrenNonNull = expr.isSome) ∧
    (∀ name args, (newFunctionCallNode name args).functionArguments = some args ∧
      (newFunctionCallNode name args).childrenNonNull = args.all Option.isSome) := by
  refine ⟨fun op l r => ⟨rfl, rfl, ?_⟩, fun expr => ⟨rfl, ?_⟩, fun name args => ⟨rfl, rfl⟩⟩
  · simp [TreeNode.childrenNonNull, newOperatorNode, TreeNode.setType, TreeNode.children]
  · simp [TreeNode.childrenNonNull, newGroupNode, TreeNode.setType, TreeNode.children]

/-! ## C6 : constructors store their payload -/

/-- C6: every constructor stores its arguments unchanged and in order:
`FunctionCallNode(name, args)` has `functionName = name` and
`functionArguments = args`, `BlockNode(body)` has `body = body`,
`OperatorNode(op, l, r)` has `op`, `lhs = l` and `rhs = r`, `ValueNode(v, c)` has
`value = v` and `isConstant = c`, and `ExhaustNode(cond, body, u)` has
`usesVariable = u` (with `condition = cond` and `body = body`). -/
theorem constructors_store_payload :
    (∀ name args, (newFunctionCallNode name args).functionName = some name ∧
      (newFunctionCallNode name args).functionArguments = some args ∧
      ((newFunctionCallNode name args).functionArguments.map List.length) = some args.length) ∧
    (∀ body, (newBlockNode body).blockBody = some body) ∧
    (∀ op l r, (newOperatorNode op l r).op = some op ∧ (newOperatorNode op l r).lhs = some l ∧
      (newOperatorNode op l r).rhs = some r) ∧
    (∀ v c, (newValueNode v c).value = some v ∧ (newValueNode v c).isConstant = some c) ∧
    (∀ cond body u, (newExhaustNode cond body u).usesVariable = some u ∧
      (newExhaustNode cond body u).condition = some cond ∧
      (newExhaustNode cond body u).body = some body) ∧
    (∀ expr, (newGroupNode expr).expression = some expr) ∧
    (∀ cond body, (newIfNode cond body).condition = some cond ∧
      (newIfNode cond body).body = some body) :=
  ⟨fun _ _ => ⟨rfl, rfl, rfl⟩, fun _ => rfl, fun _ _ _ => ⟨rfl, rfl, rfl⟩, fun _ _ => ⟨rfl, rfl⟩,
    fun _ _ _ => ⟨rfl, rfl, rfl⟩, fun _ => rfl, fun _ _ => ⟨rfl, rfl⟩⟩

/-! ## C10 : null dereference -/

mutual
theorem destroy_eq_nodeCount : ∀ t : TreeNode, t.destroy = t.nodeCount
  | .FunctionCallNode _ _ a => by
      simp only [TreeNode.destroy, TreeNode.nodeCount, deleteEach_eq_nodeCount a]
  | .GroupNode _ e => by simp only [TreeNode.destroy, TreeNode.nodeCount, deletePtr_eq_nodeCount e]
  | .ValueNode _ _ _ => rfl
  | .BlockNode _ b => by
      simp only [TreeNode.destroy, TreeNode.nodeCount, deleteEach_eq_nodeCount b]
  | .ExhaustNode _ c b _ => by
      simp only [TreeNode.destroy, TreeNode.nodeCount, deletePtr_eq_nodeCount c,
        deletePtr_eq_nodeCount b]
  | .IfNode _ c b => by
      simp only [TreeNode.destroy, TreeNode.nodeCount, deletePtr_eq_nodeCount c,
        deletePtr_eq_nodeCount b]
  | .OperatorNode _ _ l r => by
      simp only [TreeNode.destroy, TreeNode.nodeCount, deletePtr_eq_nodeCount l,
        deletePtr_eq_nodeCount r]
theorem deletePtr_eq_nodeCount : ∀ p : Option TreeNode, deletePtr p = ptrNodeCount p
  | none => rfl
  | some t => by simp only [deletePtr, ptrNodeCount, destroy_eq_nodeCount t]
theorem deleteEach_eq_nodeCount : ∀ ps : List (Option TreeNode), deleteEach ps = eachNodeCount ps
  | [] => rfl
  | p :: rest => by
      simp only [deleteEach, eachNodeCount, deletePtr_eq_nodeCount p, deleteEach_eq_nodeCount rest]
end

/-- C10: for every tree and every level, `print level` completes without a
null dereference if and only if no node of the subtree has a null child; a
print method calls `print` on each child pointer unguarded (a null pointer
given to a Group, Operator, If, Exhaust, FunctionCall or Block makes it
fail), whereas the destructor completes on every tree, destroying exactly the
nodes that are there. -/
theorem print_completes_iff_no_null_child (t : TreeNode) (level : Int) (out : String) :
    ((t.print level out).isSome = true ↔ t.noNullChild = true) ∧
    (∀ ty, (TreeNode.GroupNode ty none).print level out = none) ∧
    (∀ ty op r, (TreeNode.OperatorNode ty op none r).print level out = none) ∧
    (∀ ty op l, (TreeNode.OperatorNode ty op (some l) none).print level out = none) ∧
    (∀ ty b, (TreeNode.IfNode ty none b).print level out = none) ∧
    (∀ ty c, (TreeNode.IfNode ty (some c) none).print level out = none) ∧
    (∀ ty b u, (TreeNode.ExhaustNode ty none b u).print level out = none) ∧
    (∀ ty c u, (TreeNode.ExhaustNode ty (some c) none u).print level out = none) ∧
    (∀ ty name pre post,
      (TreeNode.FunctionCallNode ty name (pre ++ none :: post)).print level out = none) ∧
    (∀ ty pre post, (TreeNode.BlockNode ty (pre ++ none :: post)).print level out = none) ∧
    t.destroy = t.nodeCount := by
  have hnone : ∀ pre post : List (Option TreeNode), eachNonNull (pre ++ none :: post) = false := by
    intro pre post
    induction pre with
    | nil => simp [eachNonNull, ptrNonNull]
    | cons p rest ih => simp [eachNonNull, ih]
  refine ⟨?_, ?_, ?_, ?_, ?_, ?_, ?_, ?_, ?_, ?_, destroy_eq_nodeCount t⟩
  · rw [print_eq]
    by_cases h : t.noNullChild = true <;> simp [h]
  all_goals intros
  all_goals simp [print_eq, TreeNode.noNullChild, ptrNonNull, hnone]

/-! ## C2 : indentation of children -/

theorem takeWhile_space_replicate (n : Nat) (c : Char) (rest : List Char) (hc : c ≠ ' ') :
    ((List.replicate n ' ' ++ c :: rest).takeWhile (· == ' ')).length = n := by
  induction n with
  | zero => simp [List.takeWhile_cons, hc]
  | succ k ih =>
      simp only [List.replicate_succ, List.cons_append, List.takeWhile_cons, beq_self_eq_true,
        if_true, List.length_cons, ih]

theorem label_head (t : TreeNode) : ∃ c rest, t.label.data = c :: rest ∧ c ≠ ' ' := by
  cases t with
  | FunctionCallNode _ n _ => exact ⟨'F', "unctionCall : ".data ++ n.data, rfl, by decide⟩
  | GroupNode _ _ => exact ⟨'G', "roup".data, rfl, by decide⟩
  | ValueNode _ v _ => exact ⟨'V', "alue : ".data ++ v.data, rfl, by decide⟩
  | BlockNode _ _ => exact ⟨'B', "lock".data, rfl, by decide⟩
  | ExhaustNode _ _ _ _ => exact ⟨'E', "xhaust".data, rfl, by decide⟩
  | IfNode _ _ _ => exact ⟨'I', "f".data, rfl, by decide⟩
  | OperatorNode _ o _ _ => exact ⟨'O', "perator : ".data ++ o.data, rfl, by decide⟩

theorem written_eq_header_children (t : TreeNode) (level : Int) :
    t.written level = indentation level ++ t.label ++ "\n"
      ++ eachWritten t.children (wrapInt32 (level + 1)) := by
  cases t <;>
    simp [TreeNode.written, TreeNode.label, TreeNode.children, eachWritten, String.append_assoc]

theorem leadingSpaces_header (t : TreeNode) (level : Int) (rest : String) :
    leadingSpaces (indentation level ++ t.label ++ rest) = 2 * level.toNat := by
  obtain ⟨c, tl, hl, hc⟩ := label_head t
  simp only [leadingSpaces, String.data_append, indentation, hl, List.append_assoc,
    List.cons_append]
  exact takeWhile_space_replicate _ c _ hc

theorem leadingSpaces_written (t : TreeNode) (level : Int) :
    leadingSpaces (t.written level) = 2 * level.toNat := by
  rw [written_eq_header_children, String.append_assoc (indentation level ++ t.label)]
  exact leadingSpaces_header t level _

theorem noNullChild_eq_children (t : TreeNode) : t.noNullChild = eachNonNull t.children := by
  cases t <;> simp [TreeNode.noNullChild, TreeNode.children, eachNonNull]

theorem eachWritten_eq_join (ps : List (Option TreeNode)) (level : Int) :
    eachWritten ps level = String.join (ps.map (fun c => ptrWritten c level)) := by
  induction ps with
  | nil => rfl
  | cons p rest ih =>
      simp only [eachWritten, List.map_cons, ih]
      apply String.ext
      simp [String.data_append]

theorem wrapInt32_of_range (x : Int) (hlo : INT_MIN ≤ x) (hhi : x ≤ INT_MAX) :
    wrapInt32 x = x := by
  simp only [wrapInt32, INT_MIN, INT_MAX] at *
  omega

/-- C2 (counterexample): at level -1 a Group prints its header with no
indentation and its child, printed at level 0, with no indentation either: the
child's line does not begin with two more spaces than its parent's. -/
theorem child_not_deeper_at_negative_level :
    (newGroupNode (some (newValueNode "a" true))).noNullChild = true ∧
    (newGroupNode (some (newValueNode "a" true))).children = [some (newValueNode "a" true)] ∧
    (newGroupNode (some (newValueNode "a" true))).print (-1) "" = some "Group\nValue : a\n" ∧
    printPtr (some (newValueNode "a" true)) (wrapInt32 (-1 + 1)) "" = some "Value : a\n" ∧
    leadingSpaces "Group\nValue : a\n" = 0 ∧
    leadingSpaces "Value : a\n" = 0 ∧
    ¬ ChildrenIndentedDeeper (newGroupNode (some (newValueNode "a" true))) (-1) := by
  refine ⟨by decide, rfl, by decide, by decide, by decide, by decide, ?_⟩
  intro h
  have h1 := h "Group\nValue : a\n" (by decide) (some (newValueNode "a" true))
    (List.mem_cons_self _ _) "Value : a\n" (by decide)
  revert h1
  decide

/-- C2 (amended): for every node with no null child and every level with
`0 ≤ level < INT_MAX`, `print level` writes the node's own line, indented by
`2 * level` spaces, followed by the texts of its direct children in stored
order, each being what the child's `print (level + 1)` writes and beginning
with exactly two more spaces than the parent's line. -/
theorem children_indented_one_level_deeper (t : TreeNode) (level : Int) (out : String)
    (hnull : t.noNullChild = true) (h0 : 0 ≤ level) (h1 : level < INT_MAX) :
    ChildrenIndentedDeeper t level ∧
    ∃ texts, t.print level out
        = some (out ++ (indentation level ++ t.label ++ "\n") ++ String.join texts) ∧
      leadingSpaces (indentation level ++ t.label ++ "\n") = 2 * level.toNat ∧
      List.Forall₂ (fun c text => printPtr c (level + 1) "" = some text ∧
        leadingSpaces text = 2 * level.toNat + 2) t.children texts := by
  have hw : wrapInt32 (level + 1) = level + 1 :=
    wrapInt32_of_range _ (by simp only [INT_MIN]; omega) (by simp only [INT_MAX] at *; omega)
  have hnat : (level + 1).toNat = level.toNat + 1 := by omega
  have hch : eachNonNull t.children = true := by rw [← noNullChild_eq_children]; exact hnull
  have hchild : ∀ ps : List (Option TreeNode), eachNonNull ps = true → ∀ c ∈ ps,
      printPtr c (level + 1) "" = some (ptrWritten c (level + 1)) ∧
      leadingSpaces (ptrWritten c (level + 1)) = 2 * level.toNat + 2 := by
    intro ps
    induction ps with
    | nil => intro _ c hc; cases hc
    | cons p rest ih =>
        intro hps c hc
        simp only [eachNonNull, Bool.and_eq_true] at hps
        rcases List.mem_cons.mp hc with rfl | hc
        · cases c with
          | none => simp [ptrNonNull] at hps
          | some n =>
              refine ⟨by simp [printPtr_eq, hps.1], ?_⟩
              simp only [ptrWritten, leadingSpaces_written, hnat]
              omega
        · exact ih hps.2 c hc
  refine ⟨?_, t.children.map (fun c => ptrWritten c (level + 1)), ?_, leadingSpaces_header t level _,
    ?_⟩
  · intro whole hwhole c hc part hpart
    rw [hw] at hpart
    have h2 := hchild _ hch c hc
    rw [h2.1] at hpart
    cases hpart
    rw [print_eq, if_pos hnull] at hwhole
    cases hwhole
    simp only [String.empty_append, leadingSpaces_written, h2.2]
  · rw [print_eq, if_pos hnull, written_eq_header_children, hw, eachWritten_eq_join]
    simp [String.append_assoc]
  · rw [List.forall₂_map_right_iff, List.forall₂_same]
    intro c hc
    exact hchild _ hch c hc

/-- C2 (witness): an `If` with a value condition and an empty block, at level 2. -/
theorem children_indented_one_level_deeper_witness :
    ChildrenIndentedDeeper (newIfNode (some (newValueNode "c" false)) (some (newBlockNode []))) 2 ∧
    ∃ texts, (newIfNode (some (newValueNode "c" false)) (some (newBlockNode []))).print 2 ""
        = some ("" ++ (indentation 2 ++
            (newIfNode (some (newValueNode "c" false)) (some (newBlockNode []))).label ++ "\n")
          ++ String.join texts) ∧
      leadingSpaces (indentation 2 ++
        (newIfNode (some (newValueNode "c" false)) (some (newBlockNode []))).label ++ "\n")
          = 2 * (2 : Int).toNat ∧
      List.Forall₂ (fun c text => printPtr c (2 + 1) "" = some text ∧
        leadingSpaces text = 2 * (2 : Int).toNat + 2)
        (newIfNode (some (newValueNode "c" false)) (some (newBlockNode []))).children texts :=
  children_indented_one_level_deeper _ 2 "" (by decide) (by decide) (by decide)

/-! ## C9 : the reference outline -/

theorem join_cons (s : String) (ss : List String) : String.join (s :: ss) = s ++ String.join ss := by
  apply String.ext
  simp [String.data_append]

theorem join_append (xs ys : List String) :
    String.join (xs ++ ys) = String.join xs ++ String.join ys := by
  apply String.ext
  simp [String.data_append]

theorem referenceLine_eq (level : Int) (d : Nat) (label : String) :
    referenceLine level (d, label) = indentation (level + d) ++ label ++ "\n" := by
  have h : (2 * max 0 (level + (d : Int))).toNat = 2 * (level + (d : Int)).toNat := by omega
  simp only [referenceLine, indentation, h]

mutual
theorem written_eq_reference (level : Int) : ∀ (t : TreeNode) (d : Nat),
    INT_MIN ≤ level + d → level + d + t.height ≤ INT_MAX →
    t.written (level + d) = String.join ((t.preorder d).map (referenceLine level))
  | .FunctionCallNode _ n a, d, hlo, hhi => by
      simp only [TreeNode.height] at hhi
      simp only [TreeNode.written, TreeNode.preorder, List.map_cons, join_cons, referenceLine_eq,
        eachWritten_eq_reference level a d hlo hhi, String.append_assoc]
  | .GroupNode _ e, d, hlo, hhi => by
      simp only [TreeNode.height] at hhi
      have hw : wrapInt32 (level + d + 1) = level + ((d + 1 : Nat) : Int) := by
        rw [wrapInt32_of_range _ (by omega) (by omega)]; push_cast; ring
      simp only [TreeNode.written, TreeNode.preorder, List.map_cons, join_cons, referenceLine_eq,
        hw, ptrWritten_eq_reference level e (d + 1) (by omega) (by push_cast; omega)]
  | .ValueNode _ v _, d, _, _ => by
      simp only [TreeNode.written, TreeNode.preorder, List.map_cons, List.map_nil, join_cons,
        referenceLine_eq]
      simp [String.join, String.append_assoc]
  | .BlockNode _ b, d, hlo, hhi => by
      simp only [TreeNode.height] at hhi
      simp only [TreeNode.written, TreeNode.preorder, List.map_cons, join_cons, referenceLine_eq,
        eachWritten_eq_reference level b d hlo hhi]
  | .ExhaustNode _ c b _, d, hlo, hhi => by
      simp only [TreeNode.height] at hhi
      have hw : wrapInt32 (level + d + 1) = level + ((d + 1 : Nat) : Int) := by
        rw [wrapInt32_of_range _ (by omega) (by omega)]; push_cast; ring
      simp only [TreeNode.written, TreeNode.preorder, List.map_cons, List.map_append, join_cons,
        join_append, referenceLine_eq, hw, String.append_assoc,
        ptrWritten_eq_reference level c (d + 1) (by omega) (by push_cast; omega),
        ptrWritten_eq_reference level b (d + 1) (by omega) (by push_cast; omega)]
  | .IfNode _ c b, d, hlo, hhi => by
      simp only [TreeNode.height] at hhi
      have hw : wrapInt32 (level + d + 1) = level + ((d + 1 : Nat) : Int) := by
        rw [wrapInt32_of_range _ (by omega) (by omega)]; push_cast; ring
      simp only [TreeNode.written, TreeNode.preorder, List.map_cons, List.map_append, join_cons,
        join_append, referenceLine_eq, hw, String.append_assoc,
        ptrWritten_eq_reference level c (d + 1) (by omega) (by push_cast; omega),
        ptrWritten_eq_reference level b (d + 1) (by omega) (by push_cast; omega)]
  | .OperatorNode _ o l r, d, hlo, hhi => by
      simp only [TreeNode.height] at hhi
      have hw : wrapInt32 (level + d + 1) = level + ((d + 1 : Nat) : Int) := by
        rw [wrapInt32_of_range _ (by omega) (by omega)]; push_cast; ring
      simp only [TreeNode.written, TreeNode.preorder, List.map_cons, List.map_append, join_cons,
        join_append, referenceLine_eq, hw, String.append_assoc,
        ptrWritten_eq_reference level l (d + 1) (by omega) (by push_cast; omega),
        ptrWritten_eq_reference level r (d + 1) (by omega) (by push_cast; omega)]
theorem ptrWritten_eq_reference (level : Int) : ∀ (p : Option TreeNode) (d : Nat),
    INT_MIN ≤ level + d → level + d + ptrHeight p ≤ INT_MAX →
    ptrWritten p (level + d) = String.join ((ptrPreorder p d).map (referenceLine level))
  | none, _, _, _ => by simp [ptrWritten, ptrPreorder, String.join]
  | some t, d, hlo, hhi => by
      simp only [ptrWritten, ptrPreorder]
      exact written_eq_reference level t d hlo hhi
theorem eachWritten_eq_reference (level : Int) : ∀ (ps : List (Option TreeNode)) (d : Nat),
    INT_MIN ≤ level + d → level + d + eachHeight ps ≤ INT_MAX →
    eachWritten ps (wrapInt32 (level + d + 1))
      = String.join ((eachPreorder ps (d + 1)).map (referenceLine level))
  | [], _, _, _ => by simp [eachWritten, eachPreorder, String.join]
  | p :: rest, d, hlo, hhi => by
      simp only [eachHeight] at hhi
      have hw : wrapInt32 (level + d + 1) = level + ((d + 1 : Nat) : Int) := by
        rw [wrapInt32_of_range _ (by omega) (by omega)]; push_cast; ring
      have hrest := eachWritten_eq_reference level rest d hlo (by omega)
      rw [hw] at hrest
      simp only [eachWritten, eachPreorder, List.map_append, join_append, hw, hrest,
        ptrWritten_eq_reference level p (d + 1) (by omega) (by push_cast; omega)]
end

/-- C9: for every tree with no null child and every `int` level such that no
`level + 1` on the way down overflows (`level + height ≤ INT_MAX`),
`print level` appends exactly the reference outline: one line per node in
pre-order, the line of a node at depth `d` being `2 * max 0 (level + d)` spaces,
its label and a newline. In particular an empty Block and a FunctionCall with
no arguments print exactly their one header line. -/
theorem print_eq_referenceOutline (t : TreeNode) (level : Int) (out : String)
    (hnull : t.noNullChild = true) (hlo : INT_MIN ≤ level)
    (hhi : level + t.height ≤ INT_MAX) :
    t.print level out = some (out ++ referenceOutline t level) ∧
    (∀ ty, (TreeNode.BlockNode ty []).print level out
      = some (out ++ (String.mk (List.replicate (2 * max 0 level).toNat ' ') ++ "Block" ++ "\n"))) ∧
    (∀ ty name, (TreeNode.FunctionCallNode ty name []).print level out
      = some (out ++ (String.mk (List.replicate (2 * max 0 level).toNat ' ')
          ++ ("FunctionCall : " ++ name) ++ "\n"))) := by
  have h := written_eq_reference level t 0 (by simpa using hlo) (by simpa using hhi)
  simp only [Nat.cast_zero, add_zero] at h
  have hind : String.mk (List.replicate (2 * max 0 level).toNat ' ') = indentation level := by
    have h2 : (2 * max 0 level).toNat = 2 * level.toNat := by omega
    simp only [indentation, h2]
  refine ⟨?_, ?_, ?_⟩
  · rw [print_eq, if_pos hnull, h, referenceOutline]
  · intro ty
    simp [print_eq, TreeNode.noNullChild, eachNonNull, TreeNode.written, eachWritten, hind]
  · intro ty name
    simp [print_eq, TreeNode.noNullChild, eachNonNull, TreeNode.written, eachWritten, hind,
      String.append_assoc]

/-- C9 (witness): `if (c) { f() }` printed at level 1. -/
theorem print_eq_referenceOutline_witness :
    (newIfNode (some (newValueNode "c" false))
        (some (newBlockNode [some (newFunctionCallNode "f" [])]))).print 1 ""
      = some ("" ++ referenceOutline (newIfNode (some (newValueNode "c" false))
        (some (newBlockNode [some (newFunctionCallNode "f" [])]))) 1) ∧
    (∀ ty, (TreeNode.BlockNode ty []).print 1 ""
      = some ("" ++ (String.mk (List.replicate (2 * max 0 (1 : Int)).toNat ' ')
          ++ "Block" ++ "\n"))) ∧
    (∀ ty name, (TreeNode.FunctionCallNode ty name []).print 1 ""
      = some ("" ++ (String.mk (List.replicate (2 * max 0 (1 : Int)).toNat ' ')
          ++ ("FunctionCall : " ++ name) ++ "\n"))) :=
  print_eq_referenceOutline _ 1 "" (by decide) (by decide) (by decide)



theorem bind_ok {α β : Type} (a : α) (g : TreeGenerator)
    (f : α → TreeGenerator → ParseResult β) : (ParseResult.ok a g).bind f = f a g := rfl

theorem bind_error {α β : Type} (e : ParseError)
    (f : α → TreeGenerator → ParseResult β) :
    (ParseResult.error e : ParseResult α).bind f = .error e := rfl

theorem value?_ok {α : Type} (a : α) (g : TreeGenerator) :
    (ParseResult.ok a g).value? = some a := rfl


theorem parseFactor_identifier (L : Language) (n : Nat) (ts : List Token) (m : Nat)
    (l : Option TreeNode) (x : String) (hp : ts[m]? = some ⟨.identifier, x⟩)
    (hf : TreeGenerator.atFunctionCall ⟨ts, m, l⟩ = false) :
    parseFactor L (n + 1) ⟨ts, m, l⟩ = .ok (newValueNode x false) ⟨ts, m + 1, l⟩ := by
  rw [parseFactor]
  simp [TreeGenerator.peek, hp, hf, Token.isDelimiter, TreeGenerator.advance]

theorem parseTighter_end (L : Language) (n : Nat) (ts : List Token) (m : Nat)
    (l : Option TreeNode) (op : String) (rhs : TreeNode) (hp : ts[m]? = none) :
    parseTighter L (n + 1) op rhs ⟨ts, m, l⟩ = .ok rhs ⟨ts, m, l⟩ := by
  rw [parseTighter]
  simp [TreeGenerator.peek, hp]

theorem parseTighter_weaker (L : Language) (n : Nat) (ts : List Token) (m : Nat)
    (l : Option TreeNode) (op : String) (rhs : TreeNode) (o : String)
    (hp : ts[m]? = some ⟨.operator, o⟩) (h : ¬ L.precedence op < L.precedence o) :
    parseTighter L (n + 1) op rhs ⟨ts, m, l⟩ = .ok rhs ⟨ts, m, l⟩ := by
  rw [parseTighter]
  simp [TreeGenerator.peek, hp, h]

theorem parseTighter_tighter (L : Language) (n : Nat) (ts : List Token) (m : Nat)
    (l : Option TreeNode) (op : String) (rhs : TreeNode) (o : String)
    (hp : ts[m]? = some ⟨.operator, o⟩) (h : L.precedence op < L.precedence o) :
    parseTighter L (n + 1) op rhs ⟨ts, m, l⟩ =
      (parseBinaryOperation L n ⟨ts, m, some rhs⟩).bind fun node g1 =>
        parseTighter L n op node g1 := by
  rw [parseTighter]
  simp [TreeGenerator.peek, hp, h, TreeGenerator.setLHS]

theorem parseBinaryOperation_operator (L : Language) (n : Nat) (ts : List Token) (m : Nat)
    (l : Option TreeNode) (o : String) (hp : ts[m]? = some ⟨.operator, o⟩) :
    parseBinaryOperation L (n + 1) ⟨ts, m, l⟩ =
      (parseFactor L n ⟨ts, m + 1, l⟩).bind fun factor g1 =>
      (parseTighter L n o factor g1).bind fun rhs g2 =>
      .ok (newOperatorNode o l (some rhs)) g2 := by
  rw [parseBinaryOperation]
  simp [TreeGenerator.peek, hp, TreeGenerator.advance]

theorem foldOperators_end (L : Language) (n : Nat) (ts : List Token) (m : Nat)
    (l : Option TreeNode) (lhs : TreeNode) (hp : ts[m]? = none) :
    foldOperators L (n + 1) lhs ⟨ts, m, l⟩ = .ok lhs ⟨ts, m, l⟩ := by
  rw [foldOperators]
  simp [TreeGenerator.peek, hp]

theorem foldOperators_operator (L : Language) (n : Nat) (ts : List Token) (m : Nat)
    (l : Option TreeNode) (lhs : TreeNode) (o : String)
    (hp : ts[m]? = some ⟨.operator, o⟩) :
    foldOperators L (n + 1) lhs ⟨ts, m, l⟩ =
      (parseBinaryOperation L n ⟨ts, m, some lhs⟩).bind fun node g1 =>
        foldOperators L n node g1 := by
  rw [foldOperators]
  simp [TreeGenerator.peek, hp, TreeGenerator.setLHS]

theorem parseExpression_succ (L : Language) (n : Nat) (g : TreeGenerator) :
    parseExpression L (n + 1) g =
      (parseFactor L n g).bind fun factor g1 => foldOperators L n factor g1 := by
  rw [parseExpression]

theorem parseStatement_identifier (L : Language) (n : Nat) (ts : List Token) (m : Nat)
    (l : Option TreeNode) (x : String) (hp : ts[m]? = some ⟨.identifier, x⟩)
    (hf : TreeGenerator.atFunctionCall ⟨ts, m, l⟩ = false) :
    parseStatement L (n + 1) ⟨ts, m, l⟩ = parseExpression L n ⟨ts, m, l⟩ := by
  rw [parseStatement]
  simp [TreeGenerator.peek, hp, hf, Token.isDelimiter, Token.isKeyword]

theorem buildStatements_end (L : Language) (n : Nat) (ts : List Token) (m : Nat)
    (l : Option TreeNode) (nodes : List (Option TreeNode)) (hp : ts[m]? = none) :
    buildStatements L (n + 1) nodes ⟨ts, m, l⟩ = .ok nodes ⟨ts, m, l⟩ := by
  rw [buildStatements]
  simp [TreeGenerator.peek, hp]

theorem buildStatements_step (L : Language) (n : Nat) (ts : List Token) (m : Nat)
    (l : Option TreeNode) (nodes : List (Option TreeNode)) (t : Token)
    (hp : ts[m]? = some t) :
    buildStatements L (n + 1) nodes ⟨ts, m, l⟩ =
      (parseStatement L n ⟨ts, m, l⟩).bind fun s g1 =>
        buildStatements L n (nodes ++ [some s]) g1 := by
  rw [buildStatements]
  simp [TreeGenerator.peek, hp]

theorem buildStatements_binaryTokens_tighter (L : Language) (x op1 y op2 z : String)
    (h : L.precedence op1 < L.precedence op2) (n : Nat) :
    buildStatements L (n + 8) [] ⟨binaryTokens x op1 y op2 z, 0, none⟩ =
      .ok [some (newOperatorNode op1 (some (newValueNode x false))
        (some (newOperatorNode op2 (some (newValueNode y false))
          (some (newValueNode z false)))))]
        ⟨binaryTokens x op1 y op2 z, 5, some (newValueNode y false)⟩ := by
  rw [buildStatements_step L _ (binaryTokens x op1 y op2 z) 0 _ _ ⟨.identifier, x⟩ rfl,
    parseStatement_identifier L _ (binaryTokens x op1 y op2 z) 0 _ x rfl rfl,
    parseExpression_succ,
    parseFactor_identifier L _ (binaryTokens x op1 y op2 z) 0 _ x rfl rfl, bind_ok,
    foldOperators_operator L _ (binaryTokens x op1 y op2 z) 1 _ _ op1 rfl,
    parseBinaryOperation_operator L _ (binaryTokens x op1 y op2 z) 1 _ op1 rfl,
    parseFactor_identifier L _ (binaryTokens x op1 y op2 z) 2 _ y rfl rfl, bind_ok,
    parseTighter_tighter L _ (binaryTokens x op1 y op2 z) 3 _ _ _ op2 rfl h,
    parseBinaryOperation_operator L _ (binaryTokens x op1 y op2 z) 3 _ op2 rfl,
    parseFactor_identifier L _ (binaryTokens x op1 y op2 z) 4 _ z rfl rfl, bind_ok,
    parseTighter_end L _ (binaryTokens x op1 y op2 z) 5 _ _ _ rfl, bind_ok, bind_ok,
    parseTighter_end L _ (binaryTokens x op1 y op2 z) 5 _ _ _ rfl, bind_ok, bind_ok,
    foldOperators_end L _ (binaryTokens x op1 y op2 z) 5 _ _ rfl, bind_ok,
    buildStatements_end L _ (binaryTokens x op1 y op2 z) 5 _ _ rfl]
  rfl

theorem buildStatements_binaryTokens_left (L : Language) (x op1 y op2 z : String)
    (h : ¬ L.precedence op1 < L.precedence op2) (n : Nat) :
    buildStatements L (n + 8) [] ⟨binaryTokens x op1 y op2 z, 0, none⟩ =
      .ok [some (newOperatorNode op2 (some (newOperatorNode op1 (some (newValueNode x false))
          (some (newValueNode y false))))
        (some (newValueNode z false)))]
        ⟨binaryTokens x op1 y op2 z, 5, some (newOperatorNode op1 (some (newValueNode x false))
          (some (newValueNode y false)))⟩ := by
  rw [buildStatements_step L _ (binaryTokens x op1 y op2 z) 0 _ _ ⟨.identifier, x⟩ rfl,
    parseStatement_identifier L _ (binaryTokens x op1 y op2 z) 0 _ x rfl rfl,
    parseExpression_succ,
    parseFactor_identifier L _ (binaryTokens x op1 y op2 z) 0 _ x rfl rfl, bind_ok,
    foldOperators_operator L _ (binaryTokens x op1 y op2 z) 1 _ _ op1 rfl,
    parseBinaryOperation_operator L _ (binaryTokens x op1 y op2 z) 1 _ op1 rfl,
    parseFactor_identifier L _ (binaryTokens x op1 y op2 z) 2 _ y rfl rfl, bind_ok,
    parseTighter_weaker L _ (binaryTokens x op1 y op2 z) 3 _ _ _ op2 rfl h, bind_ok, bind_ok,
    foldOperators_operator L _ (binaryTokens x op1 y op2 z) 3 _ _ op2 rfl,
    parseBinaryOperation_operator L _ (binaryTokens x op1 y op2 z) 3 _ op2 rfl,
    parseFactor_identifier L _ (binaryTokens x op1 y op2 z) 4 _ z rfl rfl, bind_ok,
    parseTighter_end L _ (binaryTokens x op1 y op2 z) 5 _ _ _ rfl, bind_ok, bind_ok,
    foldOperators_end L _ (binaryTokens x op1 y op2 z) 5 _ _ rfl, bind_ok,
    buildStatements_end L _ (binaryTokens x op1 y op2 z) 5 _ _ rfl]
  rfl

/-! ## Invariants of the descent -/

theorem Outcome.of_error {α : Type} {b fuel : Nat} {Q : TreeGenerator → Prop}
    {E : ParseError → Prop} {e : ParseError} (h : E e) :
    Outcome b fuel Q E (ParseResult.error e : ParseResult α) := by
  refine ⟨fun _ hne => ?_, fun a1 g2 hr => ?_, fun e1 hr => ?_⟩
  · cases hne
  · cases hr
  · cases hr
    exact h

theorem Outcome.bind {α β : Type} {b fuel : Nat} {Q Q1 : TreeGenerator → Prop}
    {E : ParseError → Prop} {r : ParseResult α} {f : α → TreeGenerator → ParseResult β}
    (h : Outcome b fuel Q E r) (hf : ∀ a g1, Q g1 → Outcome b fuel Q1 E (f a g1)) :
    Outcome b fuel Q1 E (r.bind f) := by
  cases r with
  | ok a g1 => exact hf a g1 (h.2.1 a g1 rfl)
  | error e => exact Outcome.of_error (h.2.2 e rfl)
  | outOfFuel =>
      refine ⟨fun hb => absurd rfl (h.1 hb), fun a g1 hr => ?_, fun e hr => ?_⟩
      · cases hr
      · cases hr

/-- C7: for the tokens `a + b * c`, with `*` binding tighter than `+`,
`buildTree` returns the single tree `Operator(+, Value(a), Operator(*, Value(b),
Value(c)))` and not the flat left fold `Operator(*, Operator(+, a, b), c)`;
for two operators of equal precedence the tokens `x op1 y op2 z` give the
left-associative tree `Operator(op2, Operator(op1, x, y), z)`. -/
theorem buildTree_respects_precedence (L : Language) (a b c : String)
    (h : L.precedence "+" < L.precedence "*") :
    (buildTree L (newTreeGenerator (binaryTokens a "+" b "*" c))).value? =
      some [some (newOperatorNode "+" (some (newValueNode a false))
        (some (newOperatorNode "*" (some (newValueNode b false))
          (some (newValueNode c false)))))] ∧
    (buildTree L (newTreeGenerator (binaryTokens a "+" b "*" c))).value? ≠
      some [some (newOperatorNode "*" (some (newOperatorNode "+" (some (newValueNode a false))
          (some (newValueNode b false))))
        (some (newValueNode c false)))] ∧
    (∀ op1 op2 x y z : String, L.precedence op1 = L.precedence op2 →
      (buildTree L (newTreeGenerator (binaryTokens x op1 y op2 z))).value? =
        some [some (newOperatorNode op2 (some (newOperatorNode op1 (some (newValueNode x false))
            (some (newValueNode y false))))
          (some (newValueNode z false)))]) := by
  have h1 : (buildTree L (newTreeGenerator (binaryTokens a "+" b "*" c))).value? =
      some [some (newOperatorNode "+" (some (newValueNode a false))
        (some (newOperatorNode "*" (some (newValueNode b false))
          (some (newValueNode c false)))))] :=
    congrArg ParseResult.value? (buildStatements_binaryTokens_tighter L a "+" b "*" c h 40)
  refine ⟨h1, ?_, ?_⟩
  · rw [h1]
    simp [newOperatorNode, TreeNode.setType]
  · intro op1 op2 x y z heq
    exact congrArg ParseResult.value?
      (buildStatements_binaryTokens_left L x op1 y op2 z (by omega) 40)

/-- C7 (witness): a language in which `*` has binding power 2 and every other
operator 1, on the tokens `a + b * c`. -/
theorem buildTree_respects_precedence_witness :
    (buildTree ⟨fun s => if s = "*" then 2 else 1, fun _ _ => false⟩
        (newTreeGenerator (binaryTokens "a" "+" "b" "*" "c"))).value? =
      some [some (newOperatorNode "+" (some (newValueNode "a" false))
        (some (newOperatorNode "*" (some (newValueNode "b" false))
          (some (newValueNode "c" false)))))] :=
  (buildTree_respects_precedence ⟨fun s => if s = "*" then 2 else 1, fun _ _ => false⟩
    "a" "b" "c" (by decide)).1

/-! ## Truncated token sequences

The descent over a token sequence `ts` is compared with the descent over a
sequence that continues `ts`, each with its own fuel. While the cursor is within
`ts` both take the same steps (`Mirror`); the one difference is the lookahead
of function-call detection at the last token of `ts`, which sees the first
token of the continuation. Once the descent over `ts` has reached the end of
its input, it stops there or fails with `UnexpectedEndOfInput` (`EndsAt`). -/

theorem peek_at_end {ts : List Token} {g0 : TreeGenerator} (ht : g0.tokens = ts)
    (hm : g0.marker = ts.length) : g0.peek = none := by
  simp [TreeGenerator.peek, ht, hm]

theorem FailsAtEnd.bind_fails {α β : Type} {ts : List Token} {r : ParseResult α}
    (h : FailsAtEnd ts r) (f : α → TreeGenerator → ParseResult β) : FailsAtEnd ts (r.bind f) := by
  rcases h with ⟨c, rfl⟩ | rfl
  · exact Or.inl ⟨c, rfl⟩
  · exact Or.inr rfl

theorem FailsAtEnd.of_end {α : Type} {ts : List Token} {g0 : TreeGenerator}
    (hm : g0.marker = ts.length) (c : Construct) :
    FailsAtEnd ts (ParseResult.error ⟨.UnexpectedEndOfInput, g0.marker, c⟩ : ParseResult α) :=
  Or.inl ⟨c, by rw [hm]⟩

theorem expectDelimiter_atEnd {ts : List Token} {g0 : TreeGenerator} (ht : g0.tokens = ts)
    (hm : g0.marker = ts.length) (s : String) (c : Construct) :
    FailsAtEnd ts (g0.expectDelimiter s c) := by
  unfold TreeGenerator.expectDelimiter
  rw [peek_at_end ht hm]
  exact FailsAtEnd.of_end hm c

theorem expectKeyword_atEnd {ts : List Token} {g0 : TreeGenerator} (ht : g0.tokens = ts)
    (hm : g0.marker = ts.length) (s : String) (c : Construct) :
    FailsAtEnd ts (g0.expectKeyword s c) := by
  unfold TreeGenerator.expectKeyword
  rw [peek_at_end ht hm]
  exact FailsAtEnd.of_end hm c

theorem parseBlock_atEnd (L : Language) (fuel : Nat) {ts : List Token} {g0 : TreeGenerator}
    (ht : g0.tokens = ts) (hm : g0.marker = ts.length) :
    FailsAtEnd ts (parseBlock L fuel g0) := by
  cases fuel with
  | zero => rw [parseBlock]; exact Or.inr rfl
  | succ fuel => rw [parseBlock]; exact (expectDelimiter_atEnd ht hm _ _).bind_fails _

theorem parseIf_atEnd (L : Language) (fuel : Nat) {ts : List Token} {g0 : TreeGenerator}
    (ht : g0.tokens = ts) (hm : g0.marker = ts.length) :
    FailsAtEnd ts (parseIf L fuel g0) := by
  cases fuel with
  | zero => rw [parseIf]; exact Or.inr rfl
  | succ fuel => rw [parseIf]; exact (expectKeyword_atEnd ht hm _ _).bind_fails _

theorem parseExhaust_atEnd (L : Language) (fuel : Nat) {ts : List Token} {g0 : TreeGenerator}
    (ht : g0.tokens = ts) (hm : g0.marker = ts.length) :
    FailsAtEnd ts (parseExhaust L fuel g0) := by
  cases fuel with
  | zero => rw [parseExhaust]; exact Or.inr rfl
  | succ fuel => rw [parseExhaust]; exact (expectKeyword_atEnd ht hm _ _).bind_fails _

theorem parseGroup_atEnd (L : Language) (fuel : Nat) {ts : List Token} {g0 : TreeGenerator}
    (ht : g0.tokens = ts) (hm : g0.marker = ts.length) :
    FailsAtEnd ts (parseGroup L fuel g0) := by
  cases fuel with
  | zero => rw [parseGroup]; exact Or.inr rfl
  | succ fuel => rw [parseGroup]; exact (expectDelimiter_atEnd ht hm _ _).bind_fails _

mutual
theorem sameUpToFlags_written (tags : Bool) : ∀ (t1 t2 : TreeNode) (level : Int),
    t1.sameUpToFlags tags t2 = true →
    t1.written level = t2.written level ∧ t1.noNullChild = t2.noNullChild
  | .FunctionCallNode _ n1 a1, t2, level, h => by
      cases t2 with
      | FunctionCallNode _ n2 a2 =>
          simp only [TreeNode.sameUpToFlags, Bool.and_eq_true, beq_iff_eq] at h
          obtain ⟨hw, hn⟩ := eachSameUpToFlags_written tags a1 a2 (wrapInt32 (level + 1)) h.2
          simp only [TreeNode.written, TreeNode.noNullChild, h.1.2, hw, hn, and_self]
      | _ => simp [TreeNode.sameUpToFlags] at h
  | .GroupNode _ e1, t2, level, h => by
      cases t2 with
      | GroupNode _ e2 =>
          simp only [TreeNode.sameUpToFlags, Bool.and_eq_true] at h
          obtain ⟨hw, hn⟩ := ptrSameUpToFlags_written tags e1 e2 (wrapInt32 (level + 1)) h.2
          simp only [TreeNode.written, TreeNode.noNullChild, hw, hn, and_self]
      | _ => simp [TreeNode.sameUpToFlags] at h
  | .ValueNode _ v1 _, t2, level, h => by
      cases t2 with
      | ValueNode _ v2 _ =>
          simp only [TreeNode.sameUpToFlags, Bool.and_eq_true, beq_iff_eq] at h
          simp only [TreeNode.written, TreeNode.noNullChild, h.2, and_self]
      | _ => simp [TreeNode.sameUpToFlags] at h
  | .BlockNode _ b1, t2, level, h => by
      cases t2 with
      | BlockNode _ b2 =>
          simp only [TreeNode.sameUpToFlags, Bool.and_eq_true] at h
          obtain ⟨hw, hn⟩ := eachSameUpToFlags_written tags b1 b2 (wrapInt32 (level + 1)) h.2
          simp only [TreeNode.written, TreeNode.noNullChild, hw, hn, and_self]
      | _ => simp [TreeNode.sameUpToFlags] at h
  | .ExhaustNode _ c1 b1 _, t2, level, h => by
      cases t2 with
      | ExhaustNode _ c2 b2 _ =>
          simp only [TreeNode.sameUpToFlags, Bool.and_eq_true] at h
          obtain ⟨hw, hn⟩ := ptrSameUpToFlags_written tags c1 c2 (wrapInt32 (level + 1)) h.1.2
          obtain ⟨hw2, hn2⟩ := ptrSameUpToFlags_written tags b1 b2 (wrapInt32 (level + 1)) h.2
          simp only [TreeNode.written, TreeNode.noNullChild, hw, hn, hw2, hn2, and_self]
      | _ => simp [TreeNode.sameUpToFlags] at h
  | .IfNode _ c1 b1, t2, level, h => by
      cases t2 with
      | IfNode _ c2 b2 =>
          simp only [TreeNode.sameUpToFlags, Bool.and_eq_true] at h
          obtain ⟨hw, hn⟩ := ptrSameUpToFlags_written tags c1 c2 (wrapInt32 (level + 1)) h.1.2
          obtain ⟨hw2, hn2⟩ := ptrSameUpToFlags_written tags b1 b2 (wrapInt32 (level + 1)) h.2
          simp only [TreeNode.written, TreeNode.noNullChild, hw, hn, hw2, hn2, and_self]
      | _ => simp [TreeNode.sameUpToFlags] at h
  | .OperatorNode _ o1 l1 r1, t2, level, h => by
      cases t2 with
      | OperatorNode _ o2 l2 r2 =>
          simp only [TreeNode.sameUpToFlags, Bool.and_eq_true, beq_iff_eq] at h
          obtain ⟨hw, hn⟩ := ptrSameUpToFlags_written tags l1 l2 (wrapInt32 (level + 1)) h.1.2
          obtain ⟨hw2, hn2⟩ := ptrSameUpToFlags_written tags r1 r2 (wrapInt32 (level + 1)) h.2
          simp only [TreeNode.written, TreeNode.noNullChild, h.1.1.2, hw, hn, hw2, hn2, and_self]
      | _ => simp [TreeNode.sameUpToFlags] at h
theorem ptrSameUpToFlags_written (tags : Bool) : ∀ (p1 p2 : Option TreeNode) (level : Int),
    ptrSameUpToFlags tags p1 p2 = true →
    ptrWritten p1 level = ptrWritten p2 level ∧ ptrNonNull p1 = ptrNonNull p2
  | none, none, _, _ => ⟨rfl, rfl⟩
  | none, some _, _, h => by simp [ptrSameUpToFlags] at h
  | some _, none, _, h => by simp [ptrSameUpToFlags] at h
  | some t1, some t2, level, h => by
      simp only [ptrSameUpToFlags] at h
      simpa only [ptrWritten, ptrNonNull] using sameUpToFlags_written tags t1 t2 level h
theorem eachSameUpToFlags_written (tags : Bool) :
    ∀ (ps1 ps2 : List (Option TreeNode)) (level : Int),
    eachSameUpToFlags tags ps1 ps2 = true →
    eachWritten ps1 level = eachWritten ps2 level ∧ eachNonNull ps1 = eachNonNull ps2
  | [], [], _, _ => ⟨rfl, rfl⟩
  | [], _ :: _, _, h => by simp [eachSameUpToFlags] at h
  | _ :: _, [], _, h => by simp [eachSameUpToFlags] at h
  | p1 :: rest1, p2 :: rest2, level, h => by
      simp only [eachSameUpToFlags, Bool.and_eq_true] at h
      obtain ⟨hw, hn⟩ := ptrSameUpToFlags_written tags p1 p2 level h.1
      obtain ⟨hw2, hn2⟩ := eachSameUpToFlags_written tags rest1 rest2 level h.2
      simp only [eachWritten, eachNonNull, hw, hn, hw2, hn2, and_self]
end

/-- C11: for every two trees with no null child that are equal except for the
`isConstant` flag of some Value nodes and the `usesVariable` flag of some
Exhaust nodes, and for every level, `print level` completes on both and writes
the same text; in particular a constant and a reference with the same text, or
an Exhaust with and without the implicit variable, print alike. -/
theorem print_ignores_flags (t1 t2 : TreeNode) (level : Int) (out : String)
    (hnull : t1.noNullChild = true) (hsame : t1.equalUpToFlags t2 = true) :
    (∃ text, t1.print level out = some (out ++ text) ∧
      t2.print level out = some (out ++ text)) ∧
    (∀ ty v, (TreeNode.ValueNode ty v true).print level out =
      (TreeNode.ValueNode ty v false).print level out) ∧
    (∀ ty c b, (TreeNode.ExhaustNode ty c b true).print level out =
      (TreeNode.ExhaustNode ty c b false).print level out) := by
  obtain ⟨hw, hn⟩ := sameUpToFlags_written true t1 t2 level hsame
  refine ⟨⟨t1.written level, ?_, ?_⟩, fun _ _ => rfl, fun _ _ _ => rfl⟩
  · simp [print_eq, hnull]
  · simp [print_eq, ← hn, hnull, hw]

/-- C11 (witness): two Exhaust loops over the same condition and body whose
flags all differ, at level 1. -/
theorem print_ignores_flags_witness :
    (∃ text, (newExhaustNode (some (newValueNode "n" true)) (some (newBlockNode [])) true).print
        1 "" = some ("" ++ text) ∧
      (newExhaustNode (some (newValueNode "n" false)) (some (newBlockNode [])) false).print
        1 "" = some ("" ++ text)) ∧
    (∀ ty v, (TreeNode.ValueNode ty v true).print 1 "" =
      (TreeNode.ValueNode ty v false).print 1 "") ∧
    (∀ ty c b, (TreeNode.ExhaustNode ty c b true).print 1 "" =
      (TreeNode.ExhaustNode ty c b false).print 1 "") :=
  print_ignores_flags _ _ 1 "" (by decide) (by decide)

/-! ## Lines of the outline -/

theorem split_at_newline : ∀ (xs ys r s : List Char), '\n' ∉ xs → '\n' ∉ ys →
    xs ++ '\n' :: r = ys ++ '\n' :: s → xs = ys ∧ r = s
  | [], [], _, _, _, _, h => by simpa using h
  | [], y :: ys, r, s, _, hy, h => by
      simp only [List.nil_append, List.cons_append, List.cons.injEq] at h
      exact absurd h.1.symm (fun hc => hy (by simp [hc]))
  | x :: xs, [], r, s, hx, _, h => by
      simp only [List.nil_append, List.cons_append, List.cons.injEq] at h
      exact absurd h.1 (fun hc => hx (by simp [hc]))
  | x :: xs, y :: ys, r, s, hx, hy, h => by
      simp only [List.cons_append, List.cons.injEq] at h
      obtain ⟨h1, h2⟩ := split_at_newline xs ys r s
        (fun hc => hx (List.mem_cons_of_mem _ hc)) (fun hc => hy (List.mem_cons_of_mem _ hc)) h.2
      exact ⟨by rw [h.1, h1], h2⟩

theorem spaces_then_label (n1 n2 : Nat) (c1 c2 : Char) (l1 l2 : List Char)
    (h1 : c1 ≠ ' ') (h2 : c2 ≠ ' ')
    (h : List.replicate n1 ' ' ++ c1 :: l1 = List.replicate n2 ' ' ++ c2 :: l2) :
    n1 = n2 ∧ c1 :: l1 = c2 :: l2 := by
  have hn : n1 = n2 := by
    have e1 := takeWhile_space_replicate n1 c1 l1 h1
    have e2 := takeWhile_space_replicate n2 c2 l2 h2
    rw [h] at e1
    omega
  subst hn
  exact ⟨rfl, List.append_cancel_left h⟩

theorem referenceLine_data (level : Int) (entry : Nat × String) :
    (referenceLine level entry).data =
      (List.replicate (2 * max 0 (level + entry.1)).toNat ' ' ++ entry.2.data) ++ ['\n'] := by
  simp [referenceLine, String.data_append]

theorem referenceLine_body_noNewline (level : Int) (entry : Nat × String)
    (h : cleanLabel entry.2) :
    '\n' ∉ List.replicate (2 * max 0 (level + entry.1)).toNat ' ' ++ entry.2.data := by
  intro hc
  rcases List.mem_append.mp hc with hc | hc
  · have := List.eq_of_mem_replicate hc
    revert this
    decide
  · exact h.1 hc

theorem append_singleton_append (xs : List Char) (c : Char) (r : List Char) :
    (xs ++ [c]) ++ r = xs ++ c :: r := by simp

theorem join_data_cons (s : String) (ss : List String) :
    (String.join (s :: ss)).data = s.data ++ (String.join ss).data := by
  rw [join_cons, String.data_append]

/-- The outline determines its lines: two listings of clean entries that give
the same text at a level `0 ≤ level` are equal. -/
theorem referenceLines_injective (level : Int) (h0 : 0 ≤ level) :
    ∀ (es1 es2 : List (Nat × String)), (∀ e ∈ es1, cleanLabel e.2) →
    (∀ e ∈ es2, cleanLabel e.2) →
    String.join (es1.map (referenceLine level)) = String.join (es2.map (referenceLine level)) →
    es1 = es2
  | [], [], _, _, _ => rfl
  | [], e2 :: es2, _, _, h => by
      have hd := congrArg String.data h
      rw [List.map_cons, join_data_cons, referenceLine_data] at hd
      simp [String.join] at hd
  | e1 :: es1, [], _, _, h => by
      have hd := congrArg String.data h
      rw [List.map_cons, join_data_cons, referenceLine_data] at hd
      simp [String.join] at hd
  | e1 :: es1, e2 :: es2, hc1, hc2, h => by
      have hd := congrArg String.data h
      simp only [List.map_cons, join_data_cons, referenceLine_data,
        append_singleton_append] at hd
      have hl1 := hc1 e1 (List.mem_cons_self _ _)
      have hl2 := hc2 e2 (List.mem_cons_self _ _)
      obtain ⟨hbody, hrest⟩ := split_at_newline _ _ _ _
        (referenceLine_body_noNewline level e1 hl1) (referenceLine_body_noNewline level e2 hl2) hd
      obtain ⟨c1, r1, hd1, hne1⟩ := hl1.2
      obtain ⟨c2, r2, hd2, hne2⟩ := hl2.2
      rw [hd1, hd2] at hbody
      obtain ⟨hn, hlab⟩ := spaces_then_label _ _ c1 c2 r1 r2 hne1 hne2 hbody
      have hdepth : e1.1 = e2.1 := by omega
      have hlabel : e1.2 = e2.2 := String.ext (by rw [hd1, hd2, hlab])
      have htail := referenceLines_injective level h0 es1 es2
        (fun e he => hc1 e (List.mem_cons_of_mem _ he))
        (fun e he => hc2 e (List.mem_cons_of_mem _ he)) (String.ext hrest)
      rw [Prod.ext hdepth hlabel, htail]

/-! ## The outline determines the tree -/

theorem preorder_head (t : TreeNode) (d : Nat) :
    t.preorder d = (d, t.label) :: eachPreorder t.children (d + 1) := by
  cases t <;> simp [TreeNode.preorder, TreeNode.label, TreeNode.children, eachPreorder]

theorem label_initial (t : TreeNode) : t.label.data.head? = some t.nodeClass.initial := by
  cases t <;> rfl

theorem label_class {t1 t2 : TreeNode} (h : t1.label = t2.label) :
    t1.nodeClass = t2.nodeClass := by
  have h1 := label_initial t1
  rw [h, label_initial t2] at h1
  have h2 : t2.nodeClass.initial = t1.nodeClass.initial := Option.some.inj h1
  revert h2
  cases t1.nodeClass <;> cases t2.nodeClass <;> decide

theorem preorder_head_label {t1 t2 : TreeNode} {d : Nat} {r1 r2 : List (Nat × String)}
    (h : t1.preorder d ++ r1 = t2.preorder d ++ r2) : t1.label = t2.label := by
  rw [preorder_head, preorder_head] at h
  simp only [List.cons_append, List.cons.injEq, Prod.mk.injEq] at h
  exact h.1.2

theorem string_append_cancel {a b c : String} (h : a ++ b = a ++ c) : b = c := by
  apply String.ext
  have hd := congrArg String.data h
  simp only [String.data_append] at hd
  exact List.append_cancel_left hd

theorem headDepthLE_succ {d : Nat} {r : List (Nat × String)} (h : headDepthLE d r) :
    headDepthLE (d + 1) r := by
  cases r with
  | nil => trivial
  | cons e rest => exact Nat.le_succ_of_le h

theorem headDepthLE_ptr (p : Option TreeNode) (d : Nat) (r : List (Nat × String))
    (hp : ptrNonNull p = true) : headDepthLE (d + 1) (ptrPreorder p (d + 1) ++ r) := by
  cases p with
  | none => simp [ptrNonNull] at hp
  | some t =>
      rw [ptrPreorder, preorder_head]
      exact Nat.le_refl _

theorem headDepthLE_each (ps : List (Option TreeNode)) (d : Nat) (r : List (Nat × String))
    (hp : eachNonNull ps = true) (hr : headDepthLE d r) :
    headDepthLE (d + 1) (eachPreorder ps (d + 1) ++ r) := by
  cases ps with
  | nil => exact headDepthLE_succ hr
  | cons p rest =>
      simp only [eachNonNull, Bool.and_eq_true] at hp
      rw [eachPreorder, List.append_assoc]
      exact headDepthLE_ptr p d _ hp.1

theorem not_headDepthLE_each (p : Option TreeNode) (rest : List (Option TreeNode)) (d : Nat)
    (r : List (Nat × String)) (hp : eachNonNull (p :: rest) = true) :
    ¬ headDepthLE d (eachPreorder (p :: rest) (d + 1) ++ r) := by
  simp only [eachNonNull, Bool.and_eq_true] at hp
  cases p with
  | none => simp [ptrNonNull] at hp
  | some t =>
      rw [eachPreorder, ptrPreorder, preorder_head]
      exact Nat.not_succ_le_self d

mutual
theorem preorder_injective : ∀ (t1 t2 : TreeNode) (d : Nat) (r1 r2 : List (Nat × String)),
    t1.noNullChild = true → t2.noNullChild = true → headDepthLE d r1 → headDepthLE d r2 →
    t1.preorder d ++ r1 = t2.preorder d ++ r2 →
    t1.sameUpToFlags false t2 = true ∧ r1 = r2
  | .FunctionCallNode _ n1 a1, t2, d, r1, r2, hn1, hn2, hr1, hr2, h => by
      cases t2 with
      | FunctionCallNode _ n2 a2 =>
          simp only [TreeNode.preorder, List.cons_append, List.cons.injEq, Prod.mk.injEq] at h
          simp only [TreeNode.noNullChild] at hn1 hn2
          obtain ⟨hs, hr⟩ := eachPreorder_injective a1 a2 d r1 r2 hn1 hn2 hr1 hr2 h.2
          exact ⟨by simp [TreeNode.sameUpToFlags, hs, string_append_cancel h.1.2], hr⟩
      | _ => exact absurd (label_class (preorder_head_label h)) (by simp [TreeNode.nodeClass])
  | .GroupNode _ e1, t2, d, r1, r2, hn1, hn2, hr1, hr2, h => by
      cases t2 with
      | GroupNode _ e2 =>
          simp only [TreeNode.preorder, List.cons_append, List.cons.injEq] at h
          simp only [TreeNode.noNullChild] at hn1 hn2
          obtain ⟨hs, hr⟩ := ptrPreorder_injective e1 e2 (d + 1) r1 r2 hn1 hn2
            (headDepthLE_succ hr1) (headDepthLE_succ hr2) h.2
          exact ⟨by simp [TreeNode.sameUpToFlags, hs], hr⟩
      | _ => exact absurd (label_class (preorder_head_label h)) (by simp [TreeNode.nodeClass])
  | .ValueNode _ v1 _, t2, d, r1, r2, _, _, _, _, h => by
      cases t2 with
      | ValueNode _ v2 _ =>
          simp only [TreeNode.preorder, List.cons_append, List.nil_append, List.cons.injEq,
            Prod.mk.injEq] at h
          exact ⟨by simp [TreeNode.sameUpToFlags, string_append_cancel h.1.2], h.2⟩
      | _ => exact absurd (label_class (preorder_head_label h)) (by simp [TreeNode.nodeClass])
  | .BlockNode _ b1, t2, d, r1, r2, hn1, hn2, hr1, hr2, h => by
      cases t2 with
      | BlockNode _ b2 =>
          simp only [TreeNode.preorder, List.cons_append, List.cons.injEq] at h
          simp only [TreeNode.noNullChild] at hn1 hn2
          obtain ⟨hs, hr⟩ := eachPreorder_injective b1 b2 d r1 r2 hn1 hn2 hr1 hr2 h.2
          exact ⟨by simp [TreeNode.sameUpToFlags, hs], hr⟩
      | _ => exact absurd (label_class (preorder_head_label h)) (by simp [TreeNode.nodeClass])
  | .ExhaustNode _ c1 b1 _, t2, d, r1, r2, hn1, hn2, hr1, hr2, h => by
      cases t2 with
      | ExhaustNode _ c2 b2 _ =>
          simp only [TreeNode.preorder, List.cons_append, List.cons.injEq, List.append_assoc] at h
          simp only [TreeNode.noNullChild, Bool.and_eq_true] at hn1 hn2
          obtain ⟨hs1, hr3⟩ := ptrPreorder_injective c1 c2 (d + 1) _ _ hn1.1 hn2.1
            (headDepthLE_ptr b1 d r1 hn1.2) (headDepthLE_ptr b2 d r2 hn2.2) h.2
          obtain ⟨hs2, hr⟩ := ptrPreorder_injective b1 b2 (d + 1) r1 r2 hn1.2 hn2.2
            (headDepthLE_succ hr1) (headDepthLE_succ hr2) hr3
          exact ⟨by simp [TreeNode.sameUpToFlags, hs1, hs2], hr⟩
      | _ => exact absurd (label_class (preorder_head_label h)) (by simp [TreeNode.nodeClass])
  | .IfNode _ c1 b1, t2, d, r1, r2, hn1, hn2, hr1, hr2, h => by
      cases t2 with
      | IfNode _ c2 b2 =>
          simp only [TreeNode.preorder, List.cons_append, List.cons.injEq, List.append_assoc] at h
          simp only [TreeNode.noNullChild, Bool.and_eq_true] at hn1 hn2
          obtain ⟨hs1, hr3⟩ := ptrPreorder_injective c1 c2 (d + 1) _ _ hn1.1 hn2.1
            (headDepthLE_ptr b1 d r1 hn1.2) (headDepthLE_ptr b2 d r2 hn2.2) h.2
          obtain ⟨hs2, hr⟩ := ptrPreorder_injective b1 b2 (d + 1) r1 r2 hn1.2 hn2.2
            (headDepthLE_succ hr1) (headDepthLE_succ hr2) hr3
          exact ⟨by simp [TreeNode.sameUpToFlags, hs1, hs2], hr⟩
      | _ => exact absurd (label_class (preorder_head_label h)) (by simp [TreeNode.nodeClass])
  | .OperatorNode _ o1 l1 q1, t2, d, r1, r2, hn1, hn2, hr1, hr2, h => by
      cases t2 with
      | OperatorNode _ o2 l2 q2 =>
          simp only [TreeNode.preorder, List.cons_append, List.cons.injEq, List.append_assoc,
            Prod.mk.injEq] at h
          simp only [TreeNode.noNullChild, Bool.and_eq_true] at hn1 hn2
          obtain ⟨hs1, hr3⟩ := ptrPreorder_injective l1 l2 (d + 1) _ _ hn1.1 hn2.1
            (headDepthLE_ptr q1 d r1 hn1.2) (headDepthLE_ptr q2 d r2 hn2.2) h.2
          obtain ⟨hs2, hr⟩ := ptrPreorder_injective q1 q2 (d + 1) r1 r2 hn1.2 hn2.2
            (headDepthLE_succ hr1) (headDepthLE_succ hr2) hr3
          exact ⟨by simp [TreeNode.sameUpToFlags, hs1, hs2, string_append_cancel h.1.2], hr⟩
      | _ => exact absurd (label_class (preorder_head_label h)) (by simp [TreeNode.nodeClass])
theorem ptrPreorder_injective : ∀ (p1 p2 : Option TreeNode) (d : Nat)
    (r1 r2 : List (Nat × String)),
    ptrNonNull p1 = true → ptrNonNull p2 = true → headDepthLE d r1 → headDepthLE d r2 →
    ptrPreorder p1 d ++ r1 = ptrPreorder p2 d ++ r2 →
    ptrSameUpToFlags false p1 p2 = true ∧ r1 = r2
  | none, _, _, _, _, hn1, _, _, _, _ => by simp [ptrNonNull] at hn1
  | some _, none, _, _, _, _, hn2, _, _, _ => by simp [ptrNonNull] at hn2
  | some t1, some t2, d, r1, r2, hn1, hn2, hr1, hr2, h => by
      simp only [ptrNonNull] at hn1 hn2
      simp only [ptrPreorder] at h
      simpa only [ptrSameUpToFlags] using preorder_injective t1 t2 d r1 r2 hn1 hn2 hr1 hr2 h
theorem eachPreorder_injective : ∀ (ps1 ps2 : List (Option TreeNode)) (d : Nat)
    (r1 r2 : List (Nat × String)),
    eachNonNull ps1 = true → eachNonNull ps2 = true → headDepthLE d r1 → headDepthLE d r2 →
    eachPreorder ps1 (d + 1) ++ r1 = eachPreorder ps2 (d + 1) ++ r2 →
    eachSameUpToFlags false ps1 ps2 = true ∧ r1 = r2
  | [], [], _, _, _, _, _, _, _, h => ⟨rfl, by simpa [eachPreorder] using h⟩
  | [], p2 :: rest2, d, r1, r2, _, hn2, hr1, _, h => by
      simp only [eachPreorder, List.nil_append] at h
      rw [h] at hr1
      exact absurd hr1 (not_headDepthLE_each p2 rest2 d r2 hn2)
  | p1 :: rest1, [], d, r1, r2, hn1, _, _, hr2, h => by
      simp only [eachPreorder, List.nil_append] at h
      rw [← h] at hr2
      exact absurd hr2 (not_headDepthLE_each p1 rest1 d r1 hn1)
  | p1 :: rest1, p2 :: rest2, d, r1, r2, hn1, hn2, hr1, hr2, h => by
      simp only [eachPreorder, List.append_assoc] at h
      simp only [eachNonNull, Bool.and_eq_true] at hn1 hn2
      obtain ⟨hs1, hr3⟩ := ptrPreorder_injective p1 p2 (d + 1) _ _ hn1.1 hn2.1
        (headDepthLE_each rest1 d r1 hn1.2 hr1) (headDepthLE_each rest2 d r2 hn2.2 hr2) h
      obtain ⟨hs2, hr⟩ := eachPreorder_injective rest1 rest2 d r1 r2 hn1.2 hn2.2 hr1 hr2 hr3
      exact ⟨by simp [eachSameUpToFlags, hs1, hs2], hr⟩
end

theorem not_mem_of_noNewline {s : String} (h : noNewline s = true) : '\n' ∉ s.data := by
  simpa [noNewline] using h

theorem cleanLabel_literal (p : String) (c : Char) (rest : List Char) (hp : p.data = c :: rest)
    (hc : c ≠ ' ') (hn : '\n' ∉ p.data) : cleanLabel p :=
  ⟨hn, c, rest, hp, hc⟩

theorem cleanLabel_append (p v : String) (c : Char) (rest : List Char)
    (hp : p.data = c :: rest) (hc : c ≠ ' ') (hn : '\n' ∉ p.data) (hv : noNewline v = true) :
    cleanLabel (p ++ v) := by
  refine ⟨?_, c, rest ++ v.data, by simp [String.data_append, hp], hc⟩
  intro hm
  rw [String.data_append] at hm
  rcases List.mem_append.mp hm with hm | hm
  · exact hn hm
  · exact not_mem_of_noNewline hv hm

mutual
theorem preorder_clean : ∀ (t : TreeNode) (d : Nat), t.payloadNoNewline = true →
    ∀ e ∈ t.preorder d, cleanLabel e.2
  | .FunctionCallNode _ n a, d, h, e, he => by
      simp only [TreeNode.payloadNoNewline, Bool.and_eq_true] at h
      simp only [TreeNode.preorder, List.mem_cons] at he
      rcases he with rfl | he
      · exact cleanLabel_append _ n 'F' _ rfl (by decide) (by decide) h.1
      · exact eachPreorder_clean a (d + 1) h.2 e he
  | .GroupNode _ p, d, h, e, he => by
      simp only [TreeNode.payloadNoNewline] at h
      simp only [TreeNode.preorder, List.mem_cons] at he
      rcases he with rfl | he
      · exact cleanLabel_literal "Group" 'G' _ rfl (by decide) (by decide)
      · exact ptrPreorder_clean p (d + 1) h e he
  | .ValueNode _ v _, d, h, e, he => by
      simp only [TreeNode.payloadNoNewline] at h
      simp only [TreeNode.preorder, List.mem_singleton] at he
      subst he
      exact cleanLabel_append _ v 'V' _ rfl (by decide) (by decide) h
  | .BlockNode _ b, d, h, e, he => by
      simp only [TreeNode.payloadNoNewline] at h
      simp only [TreeNode.preorder, List.mem_cons] at he
      rcases he with rfl | he
      · exact cleanLabel_literal "Block" 'B' _ rfl (by decide) (by decide)
      · exact eachPreorder_clean b (d + 1) h e he
  | .ExhaustNode _ c b _, d, h, e, he => by
      simp only [TreeNode.payloadNoNewline, Bool.and_eq_true] at h
      simp only [TreeNode.preorder, List.mem_cons, List.mem_append] at he
      rcases he with rfl | he | he
      · exact cleanLabel_literal "Exhaust" 'E' _ rfl (by decide) (by decide)
      · exact ptrPreorder_clean c (d + 1) h.1 e he
      · exact ptrPreorder_clean b (d + 1) h.2 e he
  | .IfNode _ c b, d, h, e, he => by
      simp only [TreeNode.payloadNoNewline, Bool.and_eq_true] at h
      simp only [TreeNode.preorder, List.mem_cons, List.mem_append] at he
      rcases he with rfl | he | he
      · exact cleanLabel_literal "If" 'I' _ rfl (by decide) (by decide)
      · exact ptrPreorder_clean c (d + 1) h.1 e he
      · exact ptrPreorder_clean b (d + 1) h.2 e he
  | .OperatorNode _ o l r, d, h, e, he => by
      simp only [TreeNode.payloadNoNewline, Bool.and_eq_true] at h
      simp only [TreeNode.preorder, List.mem_cons, List.mem_append] at he
      rcases he with rfl | he | he
      · exact cleanLabel_append _ o 'O' _ rfl (by decide) (by decide) h.1.1
      · exact ptrPreorder_clean l (d + 1) h.1.2 e he
      · exact ptrPreorder_clean r (d + 1) h.2 e he
theorem ptrPreorder_clean : ∀ (p : Option TreeNode) (d : Nat), ptrPayloadNoNewline p = true →
    ∀ e ∈ ptrPreorder p d, cleanLabel e.2
  | none, _, _, e, he => by simp [ptrPreorder] at he
  | some t, d, h, e, he => by
      simp only [ptrPayloadNoNewline] at h
      simp only [ptrPreorder] at he
      exact preorder_clean t d h e he
theorem eachPreorder_clean : ∀ (ps : List (Option TreeNode)) (d : Nat),
    eachPayloadNoNewline ps = true → ∀ e ∈ eachPreorder ps d, cleanLabel e.2
  | [], _, _, e, he => by simp [eachPreorder] at he
  | p :: rest, d, h, e, he => by
      simp only [eachPayloadNoNewline, Bool.and_eq_true] at h
      simp only [eachPreorder, List.mem_append] at he
      rcases he with he | he
      · exact ptrPreorder_clean p d h.1 e he
      · exact eachPreorder_clean rest d h.2 e he
end

mutual
theorem sameUpToFlags_tags : ∀ (t1 t2 : TreeNode), t1.sameUpToFlags false t2 = true →
    t1.wellTagged = true → t2.wellTagged = true → t1.sameUpToFlags true t2 = true
  | .FunctionCallNode _ _ a1, t2, h, hw1, hw2 => by
      cases t2 with
      | FunctionCallNode _ _ a2 =>
          simp only [TreeNode.sameUpToFlags, TreeNode.wellTagged, Bool.and_eq_true,
            beq_iff_eq] at h hw1 hw2
          simp [TreeNode.sameUpToFlags, hw1.1, hw2.1, h.1.2,
            eachSameUpToFlags_tags a1 a2 h.2 hw1.2 hw2.2]
      | _ => simp [TreeNode.sameUpToFlags] at h
  | .GroupNode _ e1, t2, h, hw1, hw2 => by
      cases t2 with
      | GroupNode _ e2 =>
          simp only [TreeNode.sameUpToFlags, TreeNode.wellTagged, Bool.and_eq_true,
            beq_iff_eq] at h hw1 hw2
          simp [TreeNode.sameUpToFlags, hw1.1, hw2.1, ptrSameUpToFlags_tags e1 e2 h.2 hw1.2 hw2.2]
      | _ => simp [TreeNode.sameUpToFlags] at h
  | .ValueNode _ _ _, t2, h, hw1, hw2 => by
      cases t2 with
      | ValueNode _ _ _ =>
          simp only [TreeNode.sameUpToFlags, TreeNode.wellTagged, Bool.and_eq_true,
            beq_iff_eq] at h hw1 hw2
          simp [TreeNode.sameUpToFlags, hw1, hw2, h.2]
      | _ => simp [TreeNode.sameUpToFlags] at h
  | .BlockNode _ b1, t2, h, hw1, hw2 => by
      cases t2 with
      | BlockNode _ b2 =>
          simp only [TreeNode.sameUpToFlags, TreeNode.wellTagged, Bool.and_eq_true,
            beq_iff_eq] at h hw1 hw2
          simp [TreeNode.sameUpToFlags, hw1.1, hw2.1,
            eachSameUpToFlags_tags b1 b2 h.2 hw1.2 hw2.2]
      | _ => simp [TreeNode.sameUpToFlags] at h
  | .ExhaustNode _ c1 b1 _, t2, h, hw1, hw2 => by
      cases t2 with
      | ExhaustNode _ c2 b2 _ =>
          simp only [TreeNode.sameUpToFlags, TreeNode.wellTagged, Bool.and_eq_true,
            beq_iff_eq] at h hw1 hw2
          simp [TreeNode.sameUpToFlags, hw1.1.1, hw2.1.1,
            ptrSameUpToFlags_tags c1 c2 h.1.2 hw1.1.2 hw2.1.2,
            ptrSameUpToFlags_tags b1 b2 h.2 hw1.2 hw2.2]
      | _ => simp [TreeNode.sameUpToFlags] at h
  | .IfNode _ c1 b1, t2, h, hw1, hw2 => by
      cases t2 with
      | IfNode _ c2 b2 =>
          simp only [TreeNode.sameUpToFlags, TreeNode.wellTagged, Bool.and_eq_true,
            beq_iff_eq] at h hw1 hw2
          simp [TreeNode.sameUpToFlags, hw1.1.1, hw2.1.1,
            ptrSameUpToFlags_tags c1 c2 h.1.2 hw1.1.2 hw2.1.2,
            ptrSameUpToFlags_tags b1 b2 h.2 hw1.2 hw2.2]
      | _ => simp [TreeNode.sameUpToFlags] at h
  | .OperatorNode _ _ l1 q1, t2, h, hw1, hw2 => by
      cases t2 with
      | OperatorNode _ _ l2 q2 =>
          simp only [TreeNode.sameUpToFlags, TreeNode.wellTagged, Bool.and_eq_true,
            beq_iff_eq] at h hw1 hw2
          simp [TreeNode.sameUpToFlags, hw1.1.1, hw2.1.1, h.1.1.2,
            ptrSameUpToFlags_tags l1 l2 h.1.2 hw1.1.2 hw2.1.2,
            ptrSameUpToFlags_tags q1 q2 h.2 hw1.2 hw2.2]
      | _ => simp [TreeNode.sameUpToFlags] at h
theorem ptrSameUpToFlags_tags : ∀ (p1 p2 : Option TreeNode),
    ptrSameUpToFlags false p1 p2 = true → ptrWellTagged p1 = true → ptrWellTagged p2 = true →
    ptrSameUpToFlags true p1 p2 = true
  | none, none, _, _, _ => rfl
  | none, some _, h, _, _ => by simp [ptrSameUpToFlags] at h
  | some _, none, h, _, _ => by simp [ptrSameUpToFlags] at h
  | some t1, some t2, h, hw1, hw2 => by
      simp only [ptrSameUpToFlags, ptrWellTagged] at h hw1 hw2 ⊢
      exact sameUpToFlags_tags t1 t2 h hw1 hw2
theorem eachSameUpToFlags_tags : ∀ (ps1 ps2 : List (Option TreeNode)),
    eachSameUpToFlags false ps1 ps2 = true → eachWellTagged ps1 = true →
    eachWellTagged ps2 = true → eachSameUpToFlags true ps1 ps2 = true
  | [], [], _, _, _ => rfl
  | [], _ :: _, h, _, _ => by simp [eachSameUpToFlags] at h
  | _ :: _, [], h, _, _ => by simp [eachSameUpToFlags] at h
  | p1 :: rest1, p2 :: rest2, h, hw1, hw2 => by
      simp only [eachSameUpToFlags, eachWellTagged, Bool.and_eq_true] at h hw1 hw2 ⊢
      exact ⟨ptrSameUpToFlags_tags p1 p2 h.1 hw1.1 hw2.1,
        eachSameUpToFlags_tags rest1 rest2 h.2 hw1.2 hw2.2⟩
end

theorem INT_MIN_le_of_nonneg {level : Int} (h : 0 ≤ level) : INT_MIN ≤ level := by
  simp only [INT_MIN]
  omega

theorem written_eq_referenceOutline (t : TreeNode) (level : Int) (h0 : 0 ≤ level)
    (hh : level + t.height ≤ INT_MAX) : t.written level = referenceOutline t level := by
  have h := written_eq_reference level t 0 (by simpa using INT_MIN_le_of_nonneg h0)
    (by simpa using hh)
  simpa [referenceOutline] using h

theorem indentation_of_nonpos {level : Int} (h : level ≤ 0) : indentation level = "" := by
  have hz : level.toNat = 0 := by omega
  simp [indentation, hz]

theorem wrapInt32_INT_MAX_succ : wrapInt32 (INT_MAX + 1) = INT_MIN := by decide

theorem wrapInt32_INT_MIN_succ : wrapInt32 (INT_MIN + 1) = INT_MIN + 1 := by decide

theorem indentation_INT_MIN : indentation INT_MIN = "" := indentation_of_nonpos (by decide)

theorem indentation_INT_MIN_succ : indentation (INT_MIN + 1) = "" :=
  indentation_of_nonpos (by decide)

theorem flat_written_at_INT_MAX :
    (newBlockNode [some (newBlockNode []), some (newValueNode "a" false)]).written INT_MAX =
      indentation INT_MAX ++ "Block\nBlock\nValue : a\n" := by
  simp only [newBlockNode, newValueNode, TreeNode.setType, TreeNode.written, eachWritten,
    ptrWritten, wrapInt32_INT_MAX_succ, indentation_INT_MIN]
  generalize indentation INT_MAX = s
  refine String.ext ?_
  simp [String.data_append]

theorem nested_written_at_INT_MAX :
    (newBlockNode [some (newBlockNode [some (newValueNode "a" false)])]).written INT_MAX =
      indentation INT_MAX ++ "Block\nBlock\nValue : a\n" := by
  simp only [newBlockNode, newValueNode, TreeNode.setType, TreeNode.written, eachWritten,
    ptrWritten, wrapInt32_INT_MAX_succ, wrapInt32_INT_MIN_succ, indentation_INT_MIN,
    indentation_INT_MIN_succ]
  generalize indentation INT_MAX = s
  refine String.ext ?_
  simp [String.data_append]

/-! ## C12 : the outline is unambiguous up to the flags -/

/-- C12 (counterexample): at level `INT_MAX` the children are printed at
`INT_MAX + 1`, which wraps to `INT_MIN`, so every descendant is written without
indentation: the block holding an empty block and a value prints the same text
as the block holding a block that holds the value, although the two trees have
different shapes. -/
theorem outline_ambiguous_at_INT_MAX :
    (newBlockNode [some (newBlockNode []), some (newValueNode "a" false)]).noNullChild = true ∧
    (newBlockNode [some (newBlockNode [some (newValueNode "a" false)])]).noNullChild = true ∧
    (newBlockNode [some (newBlockNode []), some (newValueNode "a" false)]).payloadNoNewline
      = true ∧
    (newBlockNode [some (newBlockNode [some (newValueNode "a" false)])]).payloadNoNewline
      = true ∧
    0 ≤ INT_MAX ∧
    (newBlockNode [some (newBlockNode []), some (newValueNode "a" false)]).print INT_MAX "" =
      some ("" ++ (indentation INT_MAX ++ "Block\nBlock\nValue : a\n")) ∧
    (newBlockNode [some (newBlockNode [some (newValueNode "a" false)])]).print INT_MAX "" =
      some ("" ++ (indentation INT_MAX ++ "Block\nBlock\nValue : a\n")) ∧
    (newBlockNode [some (newBlockNode []), some (newValueNode "a" false)]).sameOutline
      (newBlockNode [some (newBlockNode [some (newValueNode "a" false)])]) = false := by
  refine ⟨by decide, by decide, by decide, by decide, by decide, ?_, ?_, by decide⟩
  · rw [print_eq, if_pos (by decide), flat_written_at_INT_MAX]
  · rw [print_eq, if_pos (by decide), nested_written_at_INT_MAX]

/-- C12 (amended): for every level `0 ≤ level` and every two trees with no null
child whose string payloads contain no newline and for which no `level + 1`
overflows on the way down (`level + height ≤ INT_MAX`), if `print level` writes
the same text for both then they have the same shape, the same class at every
position and the same string payloads; when both carry the tags their
constructors set, they differ at most in `isConstant` and `usesVariable`. -/
theorem outline_determines_tree (t1 t2 : TreeNode) (level : Int) (out : String)
    (h0 : 0 ≤ level) (hn1 : t1.noNullChild = true) (hn2 : t2.noNullChild = true)
    (hp1 : t1.payloadNoNewline = true) (hp2 : t2.payloadNoNewline = true)
    (hh1 : level + t1.height ≤ INT_MAX) (hh2 : level + t2.height ≤ INT_MAX)
    (hprint : t1.print level out = t2.print level out) :
    t1.sameOutline t2 = true ∧
    (t1.wellTagged = true → t2.wellTagged = true → t1.equalUpToFlags t2 = true) := by
  rw [print_eq, print_eq, if_pos hn1, if_pos hn2] at hprint
  have hw : t1.written level = t2.written level := string_append_cancel (Option.some.inj hprint)
  rw [written_eq_referenceOutline t1 level h0 hh1, written_eq_referenceOutline t2 level h0 hh2,
    referenceOutline, referenceOutline] at hw
  have hlist := referenceLines_injective level h0 _ _ (preorder_clean t1 0 hp1)
    (preorder_clean t2 0 hp2) hw
  have hsame := (preorder_injective t1 t2 0 [] [] hn1 hn2 trivial trivial
    (by rw [List.append_nil, List.append_nil]; exact hlist)).1
  exact ⟨hsame, fun hw1 hw2 => sameUpToFlags_tags t1 t2 hsame hw1 hw2⟩

/-- C12 (witness): a constant and a reference with the same text at level 3. -/
theorem outline_determines_tree_witness :
    (newGroupNode (some (newValueNode "x" true))).sameOutline
        (newGroupNode (some (newValueNode "x" false))) = true ∧
    ((newGroupNode (some (newValueNode "x" true))).wellTagged = true →
      (newGroupNode (some (newValueNode "x" false))).wellTagged = true →
      (newGroupNode (some (newValueNode "x" true))).equalUpToFlags
        (newGroupNode (some (newValueNode "x" false))) = true) :=
  outline_determines_tree _ _ 3 "" (by decide) (by decide) (by decide) (by decide) (by decide)
    (by decide) (by decide) (by decide)

/-! ## C13 : raising the level shifts the outline -/

theorem indentFrom_false_line : ∀ (xs rest : List Char), '\n' ∉ xs →
    indentFrom false (xs ++ '\n' :: rest) = xs ++ '\n' :: indentFrom true rest
  | [], rest, _ => by simp [indentFrom]
  | x :: xs, rest, h => by
      have hx : (x == '\n') = false := by
        simp only [beq_eq_false_iff_ne, ne_eq]
        exact fun hc => h (by simp [hc])
      have ih := indentFrom_false_line xs rest (fun hc => h (List.mem_cons_of_mem _ hc))
      simp only [List.cons_append, indentFrom, hx]
      exact congrArg _ ih

theorem indentFrom_true_line (xs rest : List Char) (h : '\n' ∉ xs) :
    indentFrom true (xs ++ '\n' :: rest) = ' ' :: ' ' :: (xs ++ '\n' :: indentFrom true rest) := by
  cases xs with
  | nil => simp [indentFrom]
  | cons x xs =>
      have hx : (x == '\n') = false := by
        simp only [beq_eq_false_iff_ne, ne_eq]
        exact fun hc => h (by simp [hc])
      have ih := indentFrom_false_line xs rest (fun hc => h (List.mem_cons_of_mem _ hc))
      simp only [List.cons_append, indentFrom, hx]
      exact congrArg (fun l => ' ' :: ' ' :: x :: l) ih

theorem join_nil_data : (String.join []).data = [] := rfl

theorem referenceLine_succ (level : Int) (h0 : 0 ≤ level) (entry : Nat × String) :
    (referenceLine (level + 1) entry).data = ' ' :: ' ' :: (referenceLine level entry).data := by
  have hn : (2 * max 0 (level + 1 + (entry.1 : Int))).toNat
      = (2 * max 0 (level + (entry.1 : Int))).toNat + 2 := by omega
  rw [referenceLine_data, referenceLine_data, hn]
  simp [List.replicate_succ]

theorem indentText_lines (level : Int) (h0 : 0 ≤ level) :
    ∀ es : List (Nat × String), (∀ e ∈ es, cleanLabel e.2) →
    indentText (String.join (es.map (referenceLine level))) =
      String.join (es.map (referenceLine (level + 1)))
  | [], _ => rfl
  | e :: es, hc => by
      have ih := indentText_lines level h0 es (fun x hx => hc x (List.mem_cons_of_mem _ hx))
      have ihd := congrArg String.data ih
      simp only [indentText] at ihd
      refine String.ext ?_
      simp only [indentText, List.map_cons, join_data_cons, referenceLine_succ level h0,
        referenceLine_data level, append_singleton_append, List.cons_append]
      rw [indentFrom_true_line _ _ (referenceLine_body_noNewline level e
        (hc e (List.mem_cons_self _ _))), ihd]

theorem unindented_child_not_shifted (level : Int) (h0 : 0 ≤ level) :
    indentation (level + 1) ++ "Group\nValue : a\n" ≠
      indentText (referenceOutline (newGroupNode (some (newValueNode "a" false))) level) := by
  intro hcontra
  rw [referenceOutline, indentText_lines level h0 _ (preorder_clean _ 0 (by decide))] at hcontra
  have hlen := congrArg (fun s => s.data.length) hcontra
  simp only [newGroupNode, newValueNode, TreeNode.setType, TreeNode.preorder, ptrPreorder,
    List.map_cons, List.map_nil, join_data_cons, referenceLine_data, String.data_append,
    List.length_append, List.length_replicate, indentation, join_nil_data,
    List.length_cons, List.length_nil] at hlen
  omega

theorem group_value_written (level : Int) (h : wrapInt32 (level + 1) = level + 1) :
    (newGroupNode (some (newValueNode "a" false))).written level =
      indentation level ++ "Group\n" ++ (indentation (level + 1) ++ "Value : a\n") := by
  simp only [newGroupNode, newValueNode, TreeNode.setType, TreeNode.written, ptrWritten, h]
  generalize indentation level = s
  generalize indentation (level + 1) = s1
  refine String.ext ?_
  simp [String.data_append]

/-- C13 (counterexample): at level `INT_MAX - 1` a Group prints its child at
`INT_MAX`, but at level `INT_MAX` the child's level `INT_MAX + 1` wraps to
`INT_MIN` and the child is written without indentation, so the text of
`print (level + 1)` is not the text of `print level` with every line shifted. -/
theorem outline_not_shifted_near_INT_MAX :
    (newGroupNode (some (newValueNode "a" false))).noNullChild = true ∧
    (newGroupNode (some (newValueNode "a" false))).payloadNoNewline = true ∧
    0 ≤ INT_MAX - 1 ∧
    (newGroupNode (some (newValueNode "a" false))).print (INT_MAX - 1) "" =
      some ("" ++ (indentation (INT_MAX - 1) ++ "Group\n" ++
        (indentation (INT_MAX - 1 + 1) ++ "Value : a\n"))) ∧
    (newGroupNode (some (newValueNode "a" false))).print (INT_MAX - 1 + 1) "" =
      some ("" ++ (indentation (INT_MAX - 1 + 1) ++ "Group\nValue : a\n")) ∧
    indentation (INT_MAX - 1 + 1) ++ "Group\nValue : a\n" ≠
      indentText (indentation (INT_MAX - 1) ++ "Group\n" ++
        (indentation (INT_MAX - 1 + 1) ++ "Value : a\n")) := by
  have hlev : INT_MAX - 1 + 1 = INT_MAX := by decide
  have h0 : (0 : Int) ≤ INT_MAX - 1 := by decide
  have hwrap : wrapInt32 (INT_MAX - 1 + 1) = INT_MAX - 1 + 1 := by decide
  have hw0 := group_value_written (INT_MAX - 1) hwrap
  have hw1 : (newGroupNode (some (newValueNode "a" false))).written INT_MAX =
      indentation INT_MAX ++ "Group\nValue : a\n" := by
    simp only [newGroupNode, newValueNode, TreeNode.setType, TreeNode.written, ptrWritten,
      wrapInt32_INT_MAX_succ, indentation_INT_MIN]
    generalize indentation INT_MAX = s
    refine String.ext ?_
    simp [String.data_append]
  refine ⟨by decide, by decide, h0, ?_, ?_, ?_⟩
  · rw [print_eq, if_pos (by decide), hw0]
  · rw [hlev, print_eq, if_pos (by decide), hw1]
  · rw [← hw0, written_eq_referenceOutline _ (INT_MAX - 1) h0 (by decide)]
    exact unindented_child_not_shifted (INT_MAX - 1) h0

/-- C13 (amended): for every tree with no null child whose string payloads
contain no newline character and every level `0 ≤ level` for which no
`level + 1` overflows in either call (`level + 1 + height ≤ INT_MAX`), the text
written by `print (level + 1)` is the text written by `print level` with two
spaces inserted at the start of every line. -/
theorem print_shifts_outline (t : TreeNode) (level : Int) (out : String) (h0 : 0 ≤ level)
    (hnull : t.noNullChild = true) (hpayload : t.payloadNoNewline = true)
    (hh : level + 1 + t.height ≤ INT_MAX) :
    ∃ text shifted, t.print level out = some (out ++ text) ∧
      t.print (level + 1) out = some (out ++ shifted) ∧ shifted = indentText text := by
  refine ⟨t.written level, t.written (level + 1), by simp [print_eq, hnull],
    by simp [print_eq, hnull], ?_⟩
  rw [written_eq_referenceOutline t level h0 (by omega),
    written_eq_referenceOutline t (level + 1) (by omega) hh, referenceOutline, referenceOutline,
    indentText_lines level h0 _ (preorder_clean t 0 hpayload)]

/-- C13 (witness): `a + b` printed at levels 0 and 1. -/
theorem print_shifts_outline_witness :
    ∃ text shifted, (newOperatorNode "+" (some (newValueNode "a" false))
        (some (newValueNode "b" false))).print 0 "" = some ("" ++ text) ∧
      (newOperatorNode "+" (some (newValueNode "a" false))
        (some (newValueNode "b" false))).print (0 + 1) "" = some ("" ++ shifted) ∧
      shifted = indentText text :=
  print_shifts_outline _ 0 "" (by decide) (by decide) (by decide) (by decide)
end Xhaust
